import Mathlib

/-!
Shallow embedding of the reconciliation core of the CSV Dock Tally
repository (field normalization, master-list reconciliation, upload
diffing, upload deletion), together with proofs about the embedded
functions.

Modelling conventions:
* JavaScript strings are lists of UTF-16 code units (`List Nat`);
* JavaScript numbers are exact decimal values `m * 10 ^ p` (`JSNum`):
  every value `parseFloat` produces from a decimal literal is of this
  shape, and the identifier/date magnitudes the code handles are small
  enough that IEEE-754 rounding never changes the integer parts or the
  range comparisons the code performs, so the exact model is faithful
  on the inputs the program operates on;
* `null`/`undefined` cell values are `Option` `none`;
* timestamps (`new Date().toISOString()`) are opaque string parameters,
  and `upload_date` values are naturals (only their order matters);
* `generateId()` is a fresh-counter parameter;
* `Date` month/day/year extraction is proleptic-Gregorian civil-calendar
  arithmetic in a fixed-offset timezone (no DST).
-/

/-- JavaScript string: a list of UTF-16 code units. -/
abbrev JSStr := List Nat

/-- Code-unit list of a Lean string literal (for concrete test inputs). -/
def ofStr (s : String) : JSStr := s.toList.map Char.toNat

/-- Whitespace test used by `String.prototype.trim` (the ASCII whitespace
code units; the exotic Unicode spaces the data never contains are omitted). -/
def isWS (c : Nat) : Bool := decide (c = 32 ∨ c = 9 ∨ c = 10 ∨ c = 13 ∨ c = 11 ∨ c = 12)

/-- ASCII digit test. -/
def isDigit (c : Nat) : Bool := decide (48 ≤ c ∧ c ≤ 57)

/-- Drop trailing whitespace. -/
def trimRightWS : JSStr → JSStr
  | [] => []
  | c :: cs =>
    match trimRightWS cs with
    | [] => if isWS c then [] else [c]
    | r => c :: r

/-- Model of `String.prototype.trim`: drop leading and trailing whitespace. -/
def jsTrim (l : JSStr) : JSStr := trimRightWS (l.dropWhile isWS)

/-- Model of `String.prototype.toUpperCase` on one code unit (ASCII range,
which is all the identifier data exercises). -/
def jsToUpper (c : Nat) : Nat := if 97 ≤ c ∧ c ≤ 122 then c - 32 else c

/-- Decimal value of a digit list (most significant first). -/
def digitsToNat (l : JSStr) : Nat := l.foldl (fun a c => 10 * a + (c - 48)) 0

/-- Ten to a natural power, as an integer. -/
def pow10 (k : Nat) : ℤ := Int.ofNat (10 ^ k)

/-- Exact value of a JavaScript number as produced by `parseFloat` on a
decimal literal: the value `m * 10 ^ p`. -/
structure JSNum where
  m : ℤ
  p : ℤ
deriving DecidableEq, Repr

/-- Model of `Math.floor` on a `JSNum` (rounds toward negative infinity). -/
def JSNum.floor (x : JSNum) : ℤ :=
  if 0 ≤ x.p then x.m * pow10 x.p.toNat else Int.fdiv x.m (pow10 (-x.p).toNat)

/-- Comparison `x > b` of a `JSNum` against an integer bound. -/
def JSNum.gtInt (x : JSNum) (b : ℤ) : Bool :=
  if 0 ≤ x.p then decide (b < x.m * pow10 x.p.toNat)
  else decide (b * pow10 (-x.p).toNat < x.m)

/-- Comparison `x < b` of a `JSNum` against an integer bound. -/
def JSNum.ltInt (x : JSNum) (b : ℤ) : Bool :=
  if 0 ≤ x.p then decide (x.m * pow10 x.p.toNat < b)
  else decide (x.m < b * pow10 (-x.p).toNat)

/-- Negation of a `JSNum`. -/
def JSNum.neg (x : JSNum) : JSNum := ⟨-x.m, x.p⟩

/-- Fuel-driven helper for `natDigitsRev` (the fuel argument only makes the
recursion structural; `natDigitsRev` supplies enough fuel that it never
runs out). -/
def natDigitsRevAux : Nat → Nat → List Nat
  | 0, _ => []
  | fuel + 1, n => if n = 0 then [] else (n % 10 + 48) :: natDigitsRevAux fuel (n / 10)

/-- Decimal digits of `n`, least significant first (empty for `0`). -/
def natDigitsRev (n : Nat) : List Nat := natDigitsRevAux n n

/-- Model of JavaScript `String(n)` for a nonnegative integer. -/
def natToStr (n : Nat) : JSStr := if n = 0 then [48] else (natDigitsRev n).reverse

/-- Model of JavaScript `String(z)` for an integer. -/
def intToStr (z : ℤ) : JSStr := if z < 0 then 45 :: natToStr z.natAbs else natToStr z.natAbs

/-- Parse an unsigned decimal mantissa from the front of `l`
(JS `StrUnsignedDecimalLiteral`: `Digits ['.' Digits?] | '.' Digits`),
returning its exact value and the unconsumed remainder. -/
def parseUnsigned (l : JSStr) : Option (JSNum × JSStr) :=
  let ds := l.takeWhile isDigit
  let r1 := l.dropWhile isDigit
  match r1 with
  | c :: r2 =>
    if c = 46 then
      let fs := r2.takeWhile isDigit
      let r3 := r2.dropWhile isDigit
      if ds = [] ∧ fs = [] then none
      else some (⟨(digitsToNat ds : ℤ) * pow10 fs.length + (digitsToNat fs : ℤ),
                  -(fs.length : ℤ)⟩, r3)
    else if ds = [] then none else some (⟨(digitsToNat ds : ℤ), 0⟩, c :: r2)
  | [] => if ds = [] then none else some (⟨(digitsToNat ds : ℤ), 0⟩, [])

/-- Parse an exponent part (`[eE][+-]?Digits`) at the front of `l`;
`none` when the exponent is absent or incomplete (JS backs off). -/
def parseExpPart (l : JSStr) : Option ℤ :=
  match l with
  | [] => none
  | c :: rest =>
    if c = 101 ∨ c = 69 then
      match rest with
      | s :: r2 =>
        if s = 43 then
          let ds := r2.takeWhile isDigit
          if ds = [] then none else some (digitsToNat ds : ℤ)
        else if s = 45 then
          let ds := r2.takeWhile isDigit
          if ds = [] then none else some (-(digitsToNat ds : ℤ))
        else
          let ds := rest.takeWhile isDigit
          if ds = [] then none else some (digitsToNat ds : ℤ)
      | [] => none
    else none

/-- Parse an unsigned number with optional exponent from the front of `l`. -/
def parseNumber (l : JSStr) : Option JSNum :=
  match parseUnsigned l with
  | none => none
  | some (x, rest) =>
    some (match parseExpPart rest with
          | some e => ⟨x.m, x.p + e⟩
          | none => x)

/-- Model of JavaScript `parseFloat`: skip leading whitespace, optional
sign, then the longest decimal-literal prefix; `none` models `NaN`.
(The `Infinity` keyword is not modelled; on it the modelled callers fall
back to the trimmed input, which is also what the real code returns.) -/
def jsParseFloat (l : JSStr) : Option JSNum :=
  match l.dropWhile isWS with
  | [] => none
  | c :: r =>
    if c = 45 then (parseNumber r).map JSNum.neg
    else if c = 43 then parseNumber r
    else parseNumber (c :: r)

/-- Test of the regular expression `^-?\d+\.?\d*[eE][+-]?\d+$` used by the
scientific-notation guard in `normalizeHB` (part_000 / part_002). -/
def matchesSci (l : JSStr) : Bool :=
  let l1 := match l with
            | c :: r => if c = 45 then r else l
            | [] => l
  let ds := l1.takeWhile isDigit
  let r1 := l1.dropWhile isDigit
  if ds = [] then false
  else
    let r2 := match r1 with
              | c :: r => if c = 46 then r else r1
              | [] => r1
    let r3 := r2.dropWhile isDigit
    match r3 with
    | [] => false
    | c :: r4 =>
      if c = 101 ∨ c = 69 then
        let r5 := match r4 with
                  | s :: r => if s = 43 ∨ s = 45 then r else r4
                  | [] => r4
        let es := r5.takeWhile isDigit
        if es = [] then false else decide (r5.dropWhile isDigit = [])
      else false

namespace CsvUtils

/-- Model of `normalizeHB` from `csvUtils.js` (src/unnamed/part_002;
src/unnamed/part_000 contains an identical copy): empty/absent input
gives the empty string; a trimmed value matching the scientific-notation
regex is parsed with `parseFloat` and replaced by `String(Math.floor(num))`;
everything else is returned trimmed, case preserved. -/
def normalizeHB (value : Option JSStr) : JSStr :=
  match value with
  | none => []
  | some s =>
    if s = [] then []
    else
      let strValue := jsTrim s
      if matchesSci strValue then
        match jsParseFloat strValue with
        | some num => intToStr num.floor
        | none => strValue
      else strValue

end CsvUtils

namespace SupabaseDB

/-- Model of `normalizeHB` from `src/src/lib/database.js`: empty/absent
input gives the empty string; otherwise `String(value).trim().toUpperCase()`. -/
def normalizeHB (value : Option JSStr) : JSStr :=
  match value with
  | none => []
  | some s => if s = [] then [] else (jsTrim s).map jsToUpper

end SupabaseDB

namespace LegacyDB

/-- Model of `normalizeHB` from the older supabase module
(src/unnamed/part_001): `parseFloat(value)`, and when it is a number,
`String(Math.floor(num))`; otherwise the trimmed string. -/
def normalizeHB (value : Option JSStr) : JSStr :=
  match value with
  | none => []
  | some s =>
    if s = [] then []
    else
      match jsParseFloat s with
      | some num => intToStr num.floor
      | none => jsTrim s

end LegacyDB

/-- Model of `hasValueChanged` (identical in database.js, part_000 and
part_001): trim both sides treating `null`/`undefined` as the empty
string; changed iff the old value was empty and the new one is not, or
both are non-empty and differ. -/
def hasValueChanged (oldVal newVal : Option JSStr) : Bool :=
  let old := jsTrim (oldVal.getD [])
  let now := jsTrim (newVal.getD [])
  (decide (old = []) && decide (now ≠ [])) ||
  (decide (old ≠ []) && decide (now ≠ []) && decide (old ≠ now))

/-- Civil Gregorian date (year, month, day) of a day index counted from
1970-01-01, by the standard era-based algorithm; this models the
month/day/year extraction JavaScript `Date` performs. All divisions are
floor divisions (the day indices in the serial range keep every operand
nonnegative, so the division convention is immaterial on real inputs). -/
def civilFromDays (z0 : ℤ) : ℤ × ℤ × ℤ :=
  let z := z0 + 719468
  let era := Int.fdiv z 146097
  let doe := z - era * 146097
  let yoe := Int.fdiv (doe - Int.fdiv doe 1460 + Int.fdiv doe 36524 - Int.fdiv doe 146096) 365
  let y := yoe + era * 400
  let doy := doe - (365 * yoe + Int.fdiv yoe 4 - Int.fdiv yoe 100)
  let mp := Int.fdiv (5 * doy + 2) 153
  let d := doy - Int.fdiv (153 * mp + 2) 5 + 1
  let mo := if mp < 10 then mp + 3 else mp - 9
  (if mo ≤ 2 then y + 1 else y, mo, d)

/-- Model of `String(..).padStart(2, '0')`. -/
def pad2 (l : JSStr) : JSStr := if l.length = 1 then 48 :: l else l

/-- Date formatting performed by `normalizeFrlForComparison` on an Excel
serial `num`: the calendar day is 1899-12-30 plus `Math.floor(num)` days
(the 1899-12-30 epoch is day -25569 from 1970-01-01), rendered as
`MM/DD/YYYY` with zero-padded month and day. -/
def formatSerial (num : JSNum) : JSStr :=
  let c := civilFromDays (num.floor - 25569)
  pad2 (natToStr c.2.1.toNat) ++ 47 :: (pad2 (natToStr c.2.2.toNat) ++ 47 :: natToStr c.1.toNat)

/-- Model of `normalizeFrlForComparison` from `src/src/lib/database.js`:
empty/blank input gives the empty string; a trimmed value containing a
slash is returned as-is; a value parsing to a number strictly between
40000 and 60000 is treated as an Excel date serial and formatted as
`MM/DD/YYYY`; anything else is returned trimmed. -/
def normalizeFrlForComparison (frlValue : Option JSStr) : JSStr :=
  match frlValue with
  | none => []
  | some s =>
    if s = [] then []
    else if jsTrim s = [] then []
    else
      let trimmed := jsTrim s
      if 47 ∈ trimmed then trimmed
      else
        match jsParseFloat trimmed with
        | none => trimmed
        | some num =>
          if num.gtInt 40000 && num.ltInt 60000 then formatSerial num else trimmed

example : hasValueChanged none (some (ofStr "X")) = true := by decide
example : hasValueChanged (some (ofStr "X")) (some (ofStr "X")) = false := by decide
example : hasValueChanged (some (ofStr "X")) (some (ofStr "")) = false := by decide
example : hasValueChanged (some (ofStr "X")) (some (ofStr "Y")) = true := by decide
example : hasValueChanged (some (ofStr " X ")) (some (ofStr "X")) = false := by decide
example : normalizeFrlForComparison (some (ofStr "45000")) = ofStr "03/15/2023" := by decide
example : normalizeFrlForComparison (some (ofStr "01/01/2012")) = ofStr "01/01/2012" := by decide
example : normalizeFrlForComparison (some (ofStr "  ")) = ofStr "" := by decide
example : normalizeFrlForComparison (some (ofStr "45000.5")) = ofStr "03/15/2023" := by decide

example : CsvUtils.normalizeHB (some (ofStr "6.17E+08")) = ofStr "617000000" := by decide
example : CsvUtils.normalizeHB (some (ofStr "62R0537240")) = ofStr "62R0537240" := by decide
example : SupabaseDB.normalizeHB (some (ofStr "62r0537240")) = ofStr "62R0537240" := by decide
example : LegacyDB.normalizeHB (some (ofStr "62R0537240")) = ofStr "62" := by decide
example : LegacyDB.normalizeHB (some (ofStr " abc ")) = ofStr "abc" := by decide
example : CsvUtils.normalizeHB (some (ofStr "-1.5e2")) = ofStr "-150" := by decide

/-- One raw CSV row of the ocean manifest, as handed to the reconciler:
each field holds the cell of the correspondingly named column (`none`
when the column is absent). -/
structure Row where
  container : Option JSStr := none
  seal_number : Option JSStr := none
  carrier : Option JSStr := none
  mbl : Option JSStr := none
  mi : Option JSStr := none
  vessel : Option JSStr := none
  hb : Option JSStr := none
  outer_quantity : Option JSStr := none
  pcs : Option JSStr := none
  wt_lbs : Option JSStr := none
  cnee : Option JSStr := none
  frl : Option JSStr := none
  file_no : Option JSStr := none
  dest : Option JSStr := none
  volume : Option JSStr := none
  vbond : Option JSStr := none
  tdf : Option JSStr := none
deriving DecidableEq, Repr

/-- One Master List entry / staged record. `id` is `none` for records the
database has not assigned an id to yet. -/
structure Entry where
  id : Option Nat := none
  container : Option JSStr := none
  seal_number : Option JSStr := none
  carrier : Option JSStr := none
  mbl : Option JSStr := none
  mi : Option JSStr := none
  vessel : Option JSStr := none
  hb : JSStr := []
  outer_quantity : Option JSStr := none
  pcs : Option JSStr := none
  wt_lbs : Option JSStr := none
  cnee : Option JSStr := none
  frl : Option JSStr := none
  file_no : Option JSStr := none
  dest : Option JSStr := none
  volume : Option JSStr := none
  vbond : Option JSStr := none
  tdf : Option JSStr := none
  last_updated_upload_id : Option Nat := none
  updated_at : Option JSStr := none
  last_update_reason : Option JSStr := none
  first_seen_upload_id : Option Nat := none
  created_at : Option JSStr := none
deriving DecidableEq, Repr

/-- Model of the JavaScript `row['COL'] || null` idiom: an empty-string
cell is stored as `null`. -/
def orNull (v : Option JSStr) : Option JSStr :=
  match v with
  | none => none
  | some s => if s = [] then none else some s

/-- The `itemData` object both `updateMasterList` implementations build
from a row: all domain fields from the row (empty cells as `null`),
`last_updated_upload_id = uploadId`, `updated_at = now`; bookkeeping
fields not listed in the literal are absent. -/
def mkItemData (uploadId : Nat) (now : JSStr) (r : Row) (hb : JSStr) : Entry :=
  { container := orNull r.container
    seal_number := orNull r.seal_number
    carrier := orNull r.carrier
    mbl := orNull r.mbl
    mi := orNull r.mi
    vessel := orNull r.vessel
    hb := hb
    outer_quantity := orNull r.outer_quantity
    pcs := orNull r.pcs
    wt_lbs := orNull r.wt_lbs
    cnee := orNull r.cnee
    frl := orNull r.frl
    file_no := orNull r.file_no
    dest := orNull r.dest
    volume := orNull r.volume
    vbond := orNull r.vbond
    tdf := orNull r.tdf
    last_updated_upload_id := some uploadId
    updated_at := some now }

/-- The subset of a Master List entry `updateMasterList` (database.js)
selects for change detection: `id, hb, frl, tdf, vbond`. -/
structure ExEntry where
  id : Nat
  hb : JSStr
  frl : Option JSStr := none
  tdf : Option JSStr := none
  vbond : Option JSStr := none
deriving DecidableEq, Repr

/-- Field-name strings of the tracked fields. -/
def nameFRL : JSStr := ofStr "FRL"

/-- Field-name string for TDF. -/
def nameTDF : JSStr := ofStr "TDF"

/-- Field-name string for VBOND. -/
def nameVBOND : JSStr := ofStr "VBOND"

/-- The `updateReason` list `updateMasterList` (database.js) accumulates:
one name per tracked field whose stored value differs from the incoming
row value per `hasValueChanged`, in the order FRL, TDF, VBOND. -/
def changedReasons (ex : ExEntry) (r : Row) : List JSStr :=
  (if hasValueChanged ex.frl r.frl then [nameFRL] else []) ++
  (if hasValueChanged ex.tdf r.tdf then [nameTDF] else []) ++
  (if hasValueChanged ex.vbond r.vbond then [nameVBOND] else [])

/-- Model of JavaScript `array.join(', ')`. -/
def joinComma (l : List JSStr) : JSStr := List.intercalate (ofStr ", ") l

/-- The map-backed lookup built by `existingItems.forEach(item =>
existingMap.set(item.hb, item))`: the last list element with the given
key wins. -/
def lookupLast (l : List ExEntry) (hb : JSStr) : Option ExEntry :=
  l.reverse.find? (fun e => decide (e.hb = hb))

namespace SupabaseDB

/-- One iteration of the staging loop of `updateMasterList`
(src/src/lib/database.js, lines 174-220): normalize the row's HB, skip it
when empty, and append either an insert record (HB unseen) or an update
record (HB present and at least one tracked field changed).  The
accumulator carries (`itemsToInsert`, `itemsToUpdate`). -/
def stageStep (uploadId : Nat) (now : JSStr) (exq : List ExEntry)
    (acc : List Entry × List Entry) (r : Row) : List Entry × List Entry :=
  let hb := normalizeHB r.hb
  if hb = [] then acc
  else
    match lookupLast exq hb with
    | some ex =>
      let reasons := changedReasons ex r
      if reasons = [] then acc
      else (acc.1,
            acc.2 ++ [{ mkItemData uploadId now r hb with
                        id := some ex.id,
                        last_update_reason := some (joinComma reasons) }])
    | none =>
      (acc.1 ++ [{ mkItemData uploadId now r hb with
                   first_seen_upload_id := some uploadId,
                   created_at := some now }],
       acc.2)

/-- Result of the staging phase of `updateMasterList` (database.js). -/
structure Staging where
  itemsToInsert : List Entry
  itemsToUpdate : List Entry
  itemsAdded : Nat
  itemsUpdated : Nat
deriving DecidableEq, Repr

/-- Model of `updateMasterList` (src/src/lib/database.js) up to the batch
writes: compute the HBs to check, bail out early when there are none,
restrict the Master List to the entries whose HB occurs in the batch
(the `.in('hb', hbsToCheck)` query), then run the staging loop; the
returned counts are the staged list lengths, exactly as the source
returns them regardless of what the batch writes do. -/
def updateMasterListStage (uploadId : Nat) (now : JSStr)
    (masterSel : List ExEntry) (rows : List Row) : Staging :=
  let hbsToCheck := (rows.map (fun r => normalizeHB r.hb)).filter (fun h => decide (h ≠ []))
  if hbsToCheck = [] then ⟨[], [], 0, 0⟩
  else
    let exq := masterSel.filter (fun e => decide (e.hb ∈ hbsToCheck))
    let st := rows.foldl (stageStep uploadId now exq) ([], [])
    ⟨st.1, st.2, st.1.length, st.2.length⟩

/-- Persistence phase of `updateMasterList` (database.js): the staged
inserts and updates are written in batches of 1000 and each write's
result object is discarded without inspecting its `error` field; the
function returns only the staged counts.  `insertOk`/`upsertOk` model
the persistence gateway's success or failure per batch. -/
def updateMasterListRun (uploadId : Nat) (now : JSStr)
    (masterSel : List ExEntry) (rows : List Row)
    (insertOk upsertOk : List Entry → Bool) : Nat × Nat :=
  let st := updateMasterListStage uploadId now masterSel rows
  let insertBatches := st.itemsToInsert.toChunks 1000
  let upsertBatches := st.itemsToUpdate.toChunks 1000
  let _ := insertBatches.map insertOk
  let _ := upsertBatches.map upsertOk
  (st.itemsAdded, st.itemsUpdated)

end SupabaseDB

namespace LocalDB

/-- Merge performed by `masterList[existingIndex] = {...existing,
...itemData}` in part_000: every key of `itemData` (the domain fields,
`last_updated_upload_id`, `updated_at`) overwrites, while the keys only
the stored entry has (`id`, `first_seen_upload_id`, `created_at`,
`last_update_reason`) are retained. -/
def mergeEntry (existing itemData : Entry) : Entry :=
  { itemData with
    id := existing.id
    first_seen_upload_id := existing.first_seen_upload_id
    created_at := existing.created_at
    last_update_reason := existing.last_update_reason }

/-- Replace the first entry with the given HB by its merge with
`itemData`; models the `findIndex`-then-assign update of part_000. -/
def replaceFirstMerge (hb : JSStr) (itemData : Entry) : List Entry → List Entry
  | [] => []
  | e :: es =>
    if e.hb = hb then mergeEntry e itemData :: es
    else e :: replaceFirstMerge hb itemData es

/-- State threaded through the row loop of part_000's `updateMasterList`:
the Master List array, the id counter modelling `generateId()`, and the
two counters. -/
structure LState where
  masterList : List Entry
  nextId : Nat
  itemsAdded : Nat
  itemsUpdated : Nat
deriving DecidableEq, Repr

/-- One iteration of the row loop of `updateMasterList`
(src/unnamed/part_000, lines 122-164): skip rows with an empty normalized
HB; if the HB is already present, merge the new `itemData` over the first
matching entry and count an update; otherwise append a new entry with
`first_seen_upload_id = uploadId` and count an addition. -/
def localStep (uploadId : Nat) (now : JSStr) (st : LState) (r : Row) : LState :=
  let hb := CsvUtils.normalizeHB r.hb
  if hb = [] then st
  else
    let itemData := mkItemData uploadId now r hb
    if st.masterList.any (fun e => decide (e.hb = hb)) then
      { st with
        masterList := replaceFirstMerge hb itemData st.masterList
        itemsUpdated := st.itemsUpdated + 1 }
    else
      { st with
        masterList := st.masterList ++
          [{ itemData with
             id := some st.nextId,
             first_seen_upload_id := some uploadId,
             created_at := some now }]
        nextId := st.nextId + 1
        itemsAdded := st.itemsAdded + 1 }

/-- Model of `updateMasterList` (src/unnamed/part_000): fold the row loop
over the batch, starting with both counters at zero. -/
def updateMasterList (uploadId : Nat) (now : JSStr)
    (master : List Entry) (nextId : Nat) (rows : List Row) : LState :=
  rows.foldl (localStep uploadId now) ⟨master, nextId, 0, 0⟩

end LocalDB

/-- An upload record; `upload_date` is a natural because only its order
matters to the code. -/
structure Upload where
  id : Nat
  upload_date : Nat
deriving DecidableEq, Repr

/-- One `report_data` row, restricted to the columns the diff engine
reads (`upload_id`, `hb`, `frl`); the remaining columns never influence
the counts under study. -/
structure RDRow where
  upload_id : Nat
  hb : Option JSStr := none
  frl : Option JSStr := none
deriving DecidableEq, Repr

/-- Rows of one upload (the `.eq('upload_id', id)` query). -/
def rowsOf (rd : List RDRow) (uid : Nat) : List RDRow :=
  rd.filter (fun r => decide (r.upload_id = uid))

/-- The SQL filter `.not('hb','is',null).neq('hb','')`. -/
def hbPresent (r : RDRow) : Bool := decide (r.hb ≠ none) && decide (r.hb ≠ some [])

/-- The SQL filter `.not('frl','is',null).neq('frl','')`. -/
def frlPresent (r : RDRow) : Bool := decide (r.frl ≠ none) && decide (r.frl ≠ some [])

namespace SupabaseDB

/-- The previous-upload query of the comparison operations in
`src/src/lib/database.js`: `.lt('upload_date', current.upload_date)
.order('upload_date', descending).limit(1)` — among the uploads strictly
earlier than the given date, one with the latest `upload_date` (the
first such in list order, matching a stable descending sort). -/
def prevUpload (uploads : List Upload) (curDate : Nat) : Option Upload :=
  (uploads.filter (fun u => decide (u.upload_date < curDate))).foldl
    (fun acc u =>
      match acc with
      | none => some u
      | some b => if b.upload_date < u.upload_date then some u else acc)
    none

/-- Model of `detectNewItems` (src/src/lib/database.js, lines 521-566):
look up the current upload, find its chronological predecessor (`0`
when there is none), then count the current upload's rows with a
non-empty HB whose HB does not occur among the previous upload's
non-empty HBs. -/
def detectNewItems (uploads : List Upload) (rd : List RDRow) (currentId : Nat) : Nat :=
  match uploads.find? (fun u => decide (u.id = currentId)) with
  | none => 0
  | some cu =>
    match prevUpload uploads cu.upload_date with
    | none => 0
    | some pu =>
      let currentHBs := (rowsOf rd currentId).filter hbPresent
      let prevHBs : List (Option JSStr) := ((rowsOf rd pu.id).filter hbPresent).map (fun r => r.hb)
      (currentHBs.filter (fun r => decide (r.hb ∉ prevHBs))).length

/-- Model of `detectRemovedItems` (src/src/lib/database.js, lines
568-608): symmetric to `detectNewItems`, counting previous-upload rows
whose HB does not occur in the current upload. -/
def detectRemovedItems (uploads : List Upload) (rd : List RDRow) (currentId : Nat) : Nat :=
  match uploads.find? (fun u => decide (u.id = currentId)) with
  | none => 0
  | some cu =>
    match prevUpload uploads cu.upload_date with
    | none => 0
    | some pu =>
      let prevHBs := (rowsOf rd pu.id).filter hbPresent
      let currentHBs : List (Option JSStr) := ((rowsOf rd currentId).filter hbPresent).map (fun r => r.hb)
      (prevHBs.filter (fun r => decide (r.hb ∉ currentHBs))).length

/-- The map-backed previous-FRL lookup of `detectNewlyFrld`: `prevData
.forEach(item => prevFrlMap.set(item.hb, ...))` — the last row with the
given HB wins. -/
def lastPrevRow (prev : List RDRow) (hb : Option JSStr) : Option RDRow :=
  prev.reverse.find? (fun p => decide (p.hb = hb))

/-- Core filter of `detectNewlyFrld` (src/src/lib/database.js, lines
394-435) applied to the already-fetched row batches: keep the current
rows with a raw non-empty FRL, and of those count the ones whose HB
either has no entry in the previous-upload FRL map or maps to an FRL
that normalizes to empty, provided their own FRL normalizes to
non-empty. -/
def newlyFrldCore (current prev : List RDRow) : Nat :=
  let currentWithFrl := current.filter frlPresent
  (currentWithFrl.filter (fun r =>
    match lastPrevRow prev r.hb with
    | none => decide (normalizeFrlForComparison r.frl ≠ [])
    | some p =>
      if normalizeFrlForComparison p.frl = [] then
        decide (normalizeFrlForComparison r.frl ≠ [])
      else false)).length

/-- Model of `detectNewlyFrld` (src/src/lib/database.js): `0` when the
current upload is unknown or has no chronological predecessor, else the
core count over the two uploads' rows. -/
def detectNewlyFrld (uploads : List Upload) (rd : List RDRow) (currentId : Nat) : Nat :=
  match uploads.find? (fun u => decide (u.id = currentId)) with
  | none => 0
  | some cu =>
    match prevUpload uploads cu.upload_date with
    | none => 0
    | some pu => newlyFrldCore (rowsOf rd currentId) (rowsOf rd pu.id)

/-- Full persistent state relevant to `deleteUpload`. -/
structure DBState where
  uploads : List Upload
  reportData : List RDRow
  masterList : List Entry
deriving DecidableEq, Repr

/-- Model of `deleteUpload` (src/src/lib/database.js, lines 42-79)
together with the schema's referential actions: delete the Master List
entries first seen in this upload, delete the upload's report rows
(`ON DELETE CASCADE` on `report_data.upload_id`), delete the upload
record, and apply the `ON DELETE SET NULL` actions of
supabase-migration-fix-cascade.sql to the surviving entries' upload
references. -/
def deleteUpload (st : DBState) (uploadId : Nat) : DBState :=
  let ml1 := st.masterList.filter (fun e => decide (e.first_seen_upload_id ≠ some uploadId))
  let rd1 := st.reportData.filter (fun r => decide (r.upload_id ≠ uploadId))
  let ups1 := st.uploads.filter (fun u => decide (u.id ≠ uploadId))
  let ml2 := ml1.map (fun e =>
    let e1 := if e.first_seen_upload_id = some uploadId then
                { e with first_seen_upload_id := none } else e
    if e1.last_updated_upload_id = some uploadId then
      { e1 with last_updated_upload_id := none } else e1)
  ⟨ups1, rd1, ml2⟩

end SupabaseDB

namespace LegacyDB

/-- The previous-upload query of the comparison operations in the older
supabase module (src/unnamed/part_001): `.lt('id', currentUploadId)
.order('id', descending).limit(1)` — selection by identifier ordering,
not by `upload_date`. -/
def prevUpload (uploads : List Upload) (currentId : Nat) : Option Upload :=
  (uploads.filter (fun u => decide (u.id < currentId))).foldl
    (fun acc u =>
      match acc with
      | none => some u
      | some b => if b.id < u.id then some u else acc)
    none

end LegacyDB

namespace LocalDB

/-- The previous-upload selection of the comparison operations in
src/unnamed/part_000: `uploads.findIndex(...)` then
`uploads[currentIndex + 1]` — selection by array position in the stored
list (which `saveUpload` keeps newest-first by `unshift`). -/
def prevUpload (uploads : List Upload) (currentId : Nat) : Option Upload :=
  match uploads.findIdx? (fun u => decide (u.id = currentId)) with
  | none => none
  | some i => uploads[i + 1]?

/-- Model of `deleteUpload` (src/unnamed/part_000, lines 53-63): remove
the upload and its report rows; the Master List is not touched. -/
def deleteUpload (st : SupabaseDB.DBState) (uploadId : Nat) : SupabaseDB.DBState :=
  ⟨st.uploads.filter (fun u => decide (u.id ≠ uploadId)),
   st.reportData.filter (fun r => decide (r.upload_id ≠ uploadId)),
   st.masterList⟩

end LocalDB


/-! Basic lemmas about whitespace trimming. -/

theorem trimRightWS_cons_nil (c : Nat) {cs : JSStr} (h : trimRightWS cs = []) :
    trimRightWS (c :: cs) = if isWS c then [] else [c] := by
  show (match trimRightWS cs with
        | [] => if isWS c then [] else [c]
        | r => c :: r) = _
  rw [h]

theorem trimRightWS_cons_ne (c : Nat) {cs : JSStr} {x : Nat} {xs : JSStr}
    (h : trimRightWS cs = x :: xs) :
    trimRightWS (c :: cs) = c :: x :: xs := by
  show (match trimRightWS cs with
        | [] => if isWS c then [] else [c]
        | r => c :: r) = _
  rw [h]

theorem dropWhile_idem (p : Nat → Bool) (l : JSStr) :
    (l.dropWhile p).dropWhile p = l.dropWhile p := by
  induction l with
  | nil => rfl
  | cons c cs ih =>
    by_cases h : p c
    · simp [List.dropWhile_cons, h, ih]
    · simp [List.dropWhile_cons, h]

theorem head_not_of_dropWhile_eq_self {p : Nat → Bool} {c : Nat} {cs : JSStr}
    (h : (c :: cs).dropWhile p = c :: cs) : p c = false := by
  by_cases hc : p c
  · exfalso
    rw [List.dropWhile_cons, if_pos hc] at h
    have hlen := (List.dropWhile_sublist (l := cs) p).length_le
    rw [h] at hlen
    simp at hlen
  · exact Bool.eq_false_iff.mpr hc

theorem dropWhile_trimRightWS {m : JSStr} (h : m.dropWhile isWS = m) :
    (trimRightWS m).dropWhile isWS = trimRightWS m := by
  cases m with
  | nil => rfl
  | cons c cs =>
    have hc : isWS c = false := head_not_of_dropWhile_eq_self h
    cases htr : trimRightWS cs with
    | nil => rw [trimRightWS_cons_nil c htr, hc]; simp [List.dropWhile_cons, hc]
    | cons x xs => rw [trimRightWS_cons_ne c htr]; simp [List.dropWhile_cons, hc]

theorem trimRightWS_idem (l : JSStr) : trimRightWS (trimRightWS l) = trimRightWS l := by
  induction l with
  | nil => rfl
  | cons c cs ih =>
    cases htr : trimRightWS cs with
    | nil =>
      rw [trimRightWS_cons_nil c htr]
      by_cases hc : isWS c
      · rw [if_pos hc]
        rfl
      · rw [if_neg hc, trimRightWS_cons_nil c (show trimRightWS [] = [] from rfl), if_neg hc]
    | cons x xs =>
      rw [htr] at ih
      rw [trimRightWS_cons_ne c htr, trimRightWS_cons_ne c ih]

theorem jsTrim_idem (l : JSStr) : jsTrim (jsTrim l) = jsTrim l := by
  unfold jsTrim
  rw [dropWhile_trimRightWS (dropWhile_idem isWS l), trimRightWS_idem]

theorem dropWhile_eq_self_of_all {p : Nat → Bool} {l : JSStr}
    (h : ∀ c ∈ l, p c = false) : l.dropWhile p = l := by
  cases l with
  | nil => rfl
  | cons c cs => simp [List.dropWhile_cons, h c (by simp)]

theorem trimRightWS_eq_self_of_all {l : JSStr} (h : ∀ c ∈ l, isWS c = false) :
    trimRightWS l = l := by
  induction l with
  | nil => rfl
  | cons c cs ih =>
    have hr : trimRightWS cs = cs := ih (fun x hx => h x (by simp [hx]))
    cases hcs : cs with
    | nil =>
      rw [hcs] at hr
      rw [trimRightWS_cons_nil c hr, h c (by simp)]
      simp
    | cons x xs =>
      rw [hcs] at hr
      exact trimRightWS_cons_ne c hr

theorem jsTrim_eq_self_of_all {l : JSStr} (h : ∀ c ∈ l, isWS c = false) :
    jsTrim l = l := by
  unfold jsTrim
  rw [dropWhile_eq_self_of_all h, trimRightWS_eq_self_of_all h]

theorem takeWhile_eq_self_of_all {p : Nat → Bool} {l : JSStr}
    (h : ∀ c ∈ l, p c = true) : l.takeWhile p = l := by
  induction l with
  | nil => rfl
  | cons c cs ih =>
    simp [List.takeWhile_cons, h c (by simp), ih (fun x hx => h x (by simp [hx]))]

theorem dropWhile_eq_nil_of_all {p : Nat → Bool} {l : JSStr}
    (h : ∀ c ∈ l, p c = true) : l.dropWhile p = [] := by
  induction l with
  | nil => rfl
  | cons c cs ih =>
    simp [List.dropWhile_cons, h c (by simp), ih (fun x hx => h x (by simp [hx]))]

theorem isWS_eq_false_of_ge {c : Nat} (h : 33 ≤ c) : isWS c = false := by
  simp only [isWS, decide_eq_false_iff_not]
  omega

theorem isDigit_not_WS {c : Nat} (h : isDigit c = true) : isWS c = false := by
  simp only [isDigit, decide_eq_true_eq] at h
  exact isWS_eq_false_of_ge (by omega)

/-! Lemmas about decimal rendering of integers. -/

theorem mem_natDigitsRevAux {fuel n c : Nat} (h : c ∈ natDigitsRevAux fuel n) :
    48 ≤ c ∧ c ≤ 57 := by
  induction fuel generalizing n with
  | zero => simp [natDigitsRevAux] at h
  | succ fuel ih =>
    by_cases hn : n = 0
    · simp [natDigitsRevAux, hn] at h
    · rw [natDigitsRevAux, if_neg hn] at h
      rcases List.mem_cons.mp h with h1 | h2
      · subst h1
        have := Nat.mod_lt n (show 0 < 10 by decide)
        omega
      · exact ih h2

theorem mem_natToStr {n c : Nat} (h : c ∈ natToStr n) : 48 ≤ c ∧ c ≤ 57 := by
  by_cases hn : n = 0
  · simp [natToStr, hn] at h
    omega
  · rw [natToStr, if_neg hn] at h
    exact mem_natDigitsRevAux (List.mem_reverse.mp h)

theorem natToStr_ne_nil (n : Nat) : natToStr n ≠ [] := by
  by_cases hn : n = 0
  · simp [natToStr, hn]
  · rw [natToStr, if_neg hn]
    obtain ⟨k, hk⟩ := Nat.exists_eq_succ_of_ne_zero hn
    subst hk
    rw [natDigitsRev, natDigitsRevAux, if_neg (Nat.succ_ne_zero k)]
    simp

theorem mem_intToStr {z : ℤ} {c : Nat} (h : c ∈ intToStr z) :
    c = 45 ∨ (48 ≤ c ∧ c ≤ 57) := by
  by_cases hz : z < 0
  · rw [intToStr, if_pos hz] at h
    rcases List.mem_cons.mp h with h1 | h2
    · exact Or.inl h1
    · exact Or.inr (mem_natToStr h2)
  · rw [intToStr, if_neg hz] at h
    exact Or.inr (mem_natToStr h)

theorem intToStr_ne_nil (z : ℤ) : intToStr z ≠ [] := by
  by_cases hz : z < 0
  · simp [intToStr, hz]
  · rw [intToStr, if_neg hz]
    exact natToStr_ne_nil _

theorem intToStr_not_WS {z : ℤ} {c : Nat} (h : c ∈ intToStr z) : isWS c = false := by
  rcases mem_intToStr h with h1 | h2
  · subst h1
    exact isWS_eq_false_of_ge (by omega)
  · exact isWS_eq_false_of_ge (by omega)

theorem digitsToNat_append_singleton (xs : JSStr) (d : Nat) :
    digitsToNat (xs ++ [d]) = 10 * digitsToNat xs + (d - 48) := by
  simp [digitsToNat, List.foldl_append]

theorem digitsToNat_natDigitsRevAux {fuel n : Nat} (h : n ≤ fuel) :
    digitsToNat (natDigitsRevAux fuel n).reverse = n := by
  induction fuel generalizing n with
  | zero =>
    have : n = 0 := Nat.le_zero.mp h
    simp [natDigitsRevAux, this, digitsToNat]
  | succ fuel ih =>
    by_cases hn : n = 0
    · simp [natDigitsRevAux, hn, digitsToNat]
    · rw [natDigitsRevAux, if_neg hn, List.reverse_cons, digitsToNat_append_singleton]
      have hdiv : n / 10 ≤ fuel := by
        have := Nat.div_lt_self (Nat.pos_of_ne_zero hn) (show 1 < 10 by decide)
        omega
      rw [ih hdiv]
      have := Nat.div_add_mod n 10
      have := Nat.mod_lt n (show 0 < 10 by decide)
      omega

theorem digitsToNat_natToStr (n : Nat) : digitsToNat (natToStr n) = n := by
  by_cases hn : n = 0
  · simp [natToStr, hn, digitsToNat]
  · rw [natToStr, if_neg hn]
    exact digitsToNat_natDigitsRevAux (Nat.le_refl n)

theorem natToStr_all_digits (n : Nat) : ∀ c ∈ natToStr n, isDigit c = true := by
  intro c hc
  have := mem_natToStr hc
  simp only [isDigit, decide_eq_true_eq]
  omega

/-! Lemmas about `jsParseFloat`. -/

theorem isDigit_false_of_WS {c : Nat} (h : isWS c = true) : isDigit c = false := by
  simp only [isWS, decide_eq_true_eq] at h
  simp only [isDigit, decide_eq_false_iff_not]
  omega

theorem takeWhile_append_of_all_false {p : Nat → Bool} {w : JSStr}
    (hw : ∀ c ∈ w, p c = false) (x : JSStr) :
    (x ++ w).takeWhile p = x.takeWhile p := by
  induction x with
  | nil =>
    simp only [List.nil_append, List.takeWhile_nil]
    cases w with
    | nil => rfl
    | cons c cs => simp [List.takeWhile_cons, hw c (by simp)]
  | cons c cs ih =>
    by_cases h : p c
    · simp [List.takeWhile_cons, h, ih]
    · simp [List.takeWhile_cons, h]

theorem dropWhile_append_of_all_false {p : Nat → Bool} {w : JSStr}
    (hw : ∀ c ∈ w, p c = false) (x : JSStr) :
    (x ++ w).dropWhile p = x.dropWhile p ++ w := by
  induction x with
  | nil => simp [dropWhile_eq_self_of_all hw]
  | cons c cs ih =>
    by_cases h : p c
    · simp [List.dropWhile_cons, h, ih]
    · simp [List.dropWhile_cons, h]

theorem parseUnsigned_append_ws {w : JSStr} (hw : ∀ c ∈ w, isWS c = true) (x : JSStr) :
    parseUnsigned (x ++ w) =
      match parseUnsigned x with
      | none => none
      | some (v, rest) => some (v, rest ++ w) := by
  have hdig : ∀ c ∈ w, isDigit c = false := fun c hc => isDigit_false_of_WS (hw c hc)
  have ht := takeWhile_append_of_all_false hdig x
  have hd := dropWhile_append_of_all_false hdig x
  simp only [parseUnsigned, ht, hd]
  cases hr : x.dropWhile isDigit with
  | nil =>
    simp only [List.nil_append]
    cases hwc : w with
    | nil =>
      by_cases hds : x.takeWhile isDigit = []
      · simp [hds]
      · simp [hds]
    | cons s w2 =>
      have hs : isWS s = true := hw s (by rw [hwc]; simp)
      have hs46 : ¬ s = 46 := by
        intro h
        rw [h] at hs
        simp [isWS] at hs
      by_cases hds : x.takeWhile isDigit = []
      · simp [hds, hs46]
      · simp [hds, hs46]
  | cons c r2 =>
    simp only [List.cons_append]
    by_cases hc46 : c = 46
    · subst hc46
      have hfs := takeWhile_append_of_all_false hdig r2
      have hr3 := dropWhile_append_of_all_false hdig r2
      rw [if_pos rfl, if_pos rfl, hfs, hr3]
      by_cases hguard : x.takeWhile isDigit = [] ∧ r2.takeWhile isDigit = []
      · rw [if_pos hguard, if_pos hguard]
      · rw [if_neg hguard, if_neg hguard]
    · by_cases hds : x.takeWhile isDigit = []
      · simp [hds, hc46]
      · simp [hds, hc46]

theorem parseExpPart_append_ws {w : JSStr} (hw : ∀ c ∈ w, isWS c = true) (rest : JSStr) :
    parseExpPart (rest ++ w) = parseExpPart rest := by
  have hdig : ∀ c ∈ w, isDigit c = false := fun c hc => isDigit_false_of_WS (hw c hc)
  cases rest with
  | nil =>
    simp only [List.nil_append, parseExpPart]
    cases hwc : w with
    | nil => rfl
    | cons s w2 =>
      have hs : isWS s = true := hw s (by rw [hwc]; simp)
      have hsE : ¬ (s = 101 ∨ s = 69) := by
        intro h
        rcases h with h | h <;> (rw [h] at hs; simp [isWS] at hs)
      simp [hsE]
  | cons c rest1 =>
    simp only [List.cons_append, parseExpPart]
    by_cases hcE : c = 101 ∨ c = 69
    · simp only [if_pos hcE]
      cases rest1 with
      | nil =>
        simp only [List.nil_append]
        cases hwc : w with
        | nil => rfl
        | cons s w2 =>
          have hs : isWS s = true := hw s (by rw [hwc]; simp)
          have hs43 : ¬ s = 43 := by intro h; rw [h] at hs; simp [isWS] at hs
          have hs45 : ¬ s = 45 := by intro h; rw [h] at hs; simp [isWS] at hs
          have : (s :: w2).takeWhile isDigit = [] := by
            simp [List.takeWhile_cons, isDigit_false_of_WS hs]
          simp [hs43, hs45, this]
      | cons s r2 =>
        simp only [List.cons_append]
        by_cases hs43 : s = 43
        · have h1 := takeWhile_append_of_all_false hdig r2
          simp [hs43, h1]
        · by_cases hs45 : s = 45
          · have h1 := takeWhile_append_of_all_false hdig r2
            simp [hs43, hs45, h1]
          · have h2 := takeWhile_append_of_all_false hdig (s :: r2)
            rw [List.cons_append] at h2
            simp only [if_neg hs43, if_neg hs45, h2]
    · simp [hcE]

theorem parseNumber_append_ws {w : JSStr} (hw : ∀ c ∈ w, isWS c = true) (x : JSStr) :
    parseNumber (x ++ w) = parseNumber x := by
  simp only [parseNumber, parseUnsigned_append_ws hw x]
  cases hpu : parseUnsigned x with
  | none => rfl
  | some v =>
    obtain ⟨n, rest⟩ := v
    simp only [parseExpPart_append_ws hw rest]


theorem trimRightWS_decomp (m : JSStr) :
    ∃ w, m = trimRightWS m ++ w ∧ ∀ c ∈ w, isWS c = true := by
  induction m with
  | nil => exact ⟨[], rfl, by simp⟩
  | cons c cs ih =>
    obtain ⟨w, hw, hall⟩ := ih
    cases htr : trimRightWS cs with
    | nil =>
      rw [htr, List.nil_append] at hw
      rw [trimRightWS_cons_nil c htr]
      by_cases hc : isWS c
      · refine ⟨c :: cs, ?_, ?_⟩
        · rw [if_pos hc, List.nil_append]
        · intro x hx
          rcases List.mem_cons.mp hx with h1 | h2
          · rw [h1]; exact hc
          · exact hall x (by rw [← hw]; exact h2)
      · refine ⟨cs, ?_, ?_⟩
        · rw [if_neg hc, List.cons_append, List.nil_append]
        · intro x hx
          exact hall x (by rw [← hw]; exact hx)
    | cons y ys =>
      rw [trimRightWS_cons_ne c htr]
      refine ⟨w, ?_, hall⟩
      rw [htr] at hw
      rw [List.cons_append, ← hw]

theorem jsParseFloat_jsTrim (l : JSStr) : jsParseFloat (jsTrim l) = jsParseFloat l := by
  have hm : (l.dropWhile isWS).dropWhile isWS = l.dropWhile isWS := dropWhile_idem isWS l
  obtain ⟨w, hw, hall⟩ := trimRightWS_decomp (l.dropWhile isWS)
  have htrim : (jsTrim l).dropWhile isWS = jsTrim l := dropWhile_trimRightWS hm
  show jsParseFloat (trimRightWS (l.dropWhile isWS)) = jsParseFloat l
  unfold jsParseFloat
  rw [show (trimRightWS (l.dropWhile isWS)).dropWhile isWS = trimRightWS (l.dropWhile isWS)
      from htrim]
  cases ht : trimRightWS (l.dropWhile isWS) with
  | nil =>
    rw [ht, List.nil_append] at hw
    have hw0 : w = [] := by
      have h1 : w.dropWhile isWS = w := by rw [← hw]; exact hm
      rw [dropWhile_eq_nil_of_all hall] at h1
      exact h1.symm
    rw [hw, hw0]
  | cons c t =>
    rw [ht, List.cons_append] at hw
    rw [hw]
    show (if c = 45 then (parseNumber t).map JSNum.neg
          else if c = 43 then parseNumber t else parseNumber (c :: t)) =
         (if c = 45 then (parseNumber (t ++ w)).map JSNum.neg
          else if c = 43 then parseNumber (t ++ w) else parseNumber (c :: (t ++ w)))
    by_cases hc45 : c = 45
    · rw [if_pos hc45, if_pos hc45, parseNumber_append_ws hall t]
    · rw [if_neg hc45, if_neg hc45]
      by_cases hc43 : c = 43
      · rw [if_pos hc43, if_pos hc43, parseNumber_append_ws hall t]
      · rw [if_neg hc43, if_neg hc43, ← List.cons_append, parseNumber_append_ws hall (c :: t)]

theorem parseNumber_natToStr (n : Nat) : parseNumber (natToStr n) = some ⟨(n : ℤ), 0⟩ := by
  have hall := natToStr_all_digits n
  have htake : (natToStr n).takeWhile isDigit = natToStr n := takeWhile_eq_self_of_all hall
  have hdrop : (natToStr n).dropWhile isDigit = [] := dropWhile_eq_nil_of_all hall
  simp only [parseNumber, parseUnsigned, htake, hdrop]
  rw [if_neg (natToStr_ne_nil n), digitsToNat_natToStr]
  rfl

theorem jsParseFloat_intToStr (z : ℤ) : jsParseFloat (intToStr z) = some ⟨z, 0⟩ := by
  by_cases hz : z < 0
  · rw [intToStr, if_pos hz]
    unfold jsParseFloat
    have hds : (45 :: natToStr z.natAbs).dropWhile isWS = 45 :: natToStr z.natAbs := by
      apply dropWhile_eq_self_of_all
      intro x hx
      rcases List.mem_cons.mp hx with h1 | h2
      · rw [h1]; exact isWS_eq_false_of_ge (by omega)
      · exact isWS_eq_false_of_ge (by have := mem_natToStr h2; omega)
    rw [hds]
    show (if 45 = 45 then (parseNumber (natToStr z.natAbs)).map JSNum.neg
          else if 45 = 43 then parseNumber (natToStr z.natAbs)
          else parseNumber (45 :: natToStr z.natAbs)) = some ⟨z, 0⟩
    rw [if_pos rfl, parseNumber_natToStr]
    have hzz : -((z.natAbs : ℤ)) = z := by omega
    show some (JSNum.neg ⟨(z.natAbs : ℤ), 0⟩) = some ⟨z, 0⟩
    rw [show JSNum.neg ⟨(z.natAbs : ℤ), 0⟩ = ⟨-(z.natAbs : ℤ), 0⟩ from rfl, hzz]
  · rw [intToStr, if_neg hz]
    have hne := natToStr_ne_nil z.natAbs
    obtain ⟨c, t, hct⟩ : ∃ c t, natToStr z.natAbs = c :: t := by
      cases hcase : natToStr z.natAbs with
      | nil => exact absurd hcase hne
      | cons c t => exact ⟨c, t, rfl⟩
    have hcd : 48 ≤ c ∧ c ≤ 57 := mem_natToStr (by rw [hct]; simp)
    unfold jsParseFloat
    have hds : (natToStr z.natAbs).dropWhile isWS = natToStr z.natAbs :=
      dropWhile_eq_self_of_all (fun x hx => isWS_eq_false_of_ge (by have := mem_natToStr hx; omega))
    rw [hds, hct]
    show (if c = 45 then (parseNumber t).map JSNum.neg
          else if c = 43 then parseNumber t else parseNumber (c :: t)) = some ⟨z, 0⟩
    rw [if_neg (show ¬ c = 45 by omega), if_neg (show ¬ c = 43 by omega), ← hct,
        parseNumber_natToStr]
    have hzz : ((z.natAbs : ℤ)) = z := by omega
    rw [hzz]

theorem JSNum.floor_int (z : ℤ) : JSNum.floor ⟨z, 0⟩ = z := by
  simp [JSNum.floor, pow10]

theorem matchesSci_intToStr (z : ℤ) : matchesSci (intToStr z) = false := by
  have hall := natToStr_all_digits z.natAbs
  have htake : (natToStr z.natAbs).takeWhile isDigit = natToStr z.natAbs :=
    takeWhile_eq_self_of_all hall
  have hdrop : (natToStr z.natAbs).dropWhile isDigit = [] :=
    dropWhile_eq_nil_of_all hall
  have hne := natToStr_ne_nil z.natAbs
  by_cases hz : z < 0
  · rw [intToStr, if_pos hz]
    simp only [matchesSci, if_pos rfl, htake, hdrop]
    simp [hne, hdrop, htake]
  · rw [intToStr, if_neg hz]
    obtain ⟨c, t, hct⟩ : ∃ c t, natToStr z.natAbs = c :: t := by
      cases hcase : natToStr z.natAbs with
      | nil => exact absurd hcase hne
      | cons c t => exact ⟨c, t, rfl⟩
    have hcd : 48 ≤ c ∧ c ≤ 57 := mem_natToStr (by rw [hct]; simp)
    rw [hct] at htake hdrop
    simp only [matchesSci, hct, if_neg (show ¬ c = 45 by omega), htake, hdrop]
    simp [htake, hdrop]

/-! Idempotence of the three identifier normalizers. -/

theorem jsToUpper_idem (c : Nat) : jsToUpper (jsToUpper c) = jsToUpper c := by
  unfold jsToUpper
  split_ifs <;> omega

theorem isWS_jsToUpper (c : Nat) : isWS (jsToUpper c) = isWS c := by
  unfold jsToUpper
  split_ifs with h
  · rw [isWS_eq_false_of_ge (by omega : (33:Nat) ≤ c - 32),
        isWS_eq_false_of_ge (by omega : (33:Nat) ≤ c)]
  · rfl

theorem dropWhile_isWS_map_jsToUpper (l : JSStr) :
    (l.map jsToUpper).dropWhile isWS = (l.dropWhile isWS).map jsToUpper := by
  induction l with
  | nil => rfl
  | cons c cs ih =>
    by_cases h : isWS c
    · have h2 : isWS (jsToUpper c) = true := by rw [isWS_jsToUpper]; exact h
      simp [List.dropWhile_cons, h, h2, ih]
    · have h2 : isWS (jsToUpper c) = false := by rw [isWS_jsToUpper]; exact Bool.eq_false_iff.mpr h
      simp [List.dropWhile_cons, h, h2]

theorem trimRightWS_map_jsToUpper (l : JSStr) :
    trimRightWS (l.map jsToUpper) = (trimRightWS l).map jsToUpper := by
  induction l with
  | nil => rfl
  | cons c cs ih =>
    cases htr : trimRightWS cs with
    | nil =>
      have hmap : trimRightWS (cs.map jsToUpper) = [] := by rw [ih, htr]; rfl
      rw [List.map_cons, trimRightWS_cons_nil (jsToUpper c) hmap, trimRightWS_cons_nil c htr,
          isWS_jsToUpper]
      by_cases h : isWS c
      · rw [if_pos h, if_pos h]
        rfl
      · rw [if_neg h, if_neg h]
        rfl
    | cons y ys =>
      have hmap : trimRightWS (cs.map jsToUpper) = jsToUpper y :: ys.map jsToUpper := by
        rw [ih, htr]
        rfl
      rw [List.map_cons, trimRightWS_cons_ne (jsToUpper c) hmap, trimRightWS_cons_ne c htr]
      rfl

theorem jsTrim_map_jsToUpper (l : JSStr) :
    jsTrim (l.map jsToUpper) = (jsTrim l).map jsToUpper := by
  unfold jsTrim
  rw [dropWhile_isWS_map_jsToUpper, trimRightWS_map_jsToUpper]

theorem map_jsToUpper_idem (l : JSStr) :
    (l.map jsToUpper).map jsToUpper = l.map jsToUpper := by
  induction l with
  | nil => rfl
  | cons c cs ih => simp [jsToUpper_idem, ih]

theorem supabase_normalizeHB_idem (v : Option JSStr) :
    SupabaseDB.normalizeHB (some (SupabaseDB.normalizeHB v)) = SupabaseDB.normalizeHB v := by
  cases v with
  | none => rfl
  | some s =>
    by_cases hs : s = []
    · simp [SupabaseDB.normalizeHB, hs]
    · have hinner : SupabaseDB.normalizeHB (some s) = (jsTrim s).map jsToUpper := by
        rw [SupabaseDB.normalizeHB, if_neg hs]
      rw [hinner]
      by_cases hout : (jsTrim s).map jsToUpper = []
      · rw [SupabaseDB.normalizeHB, hout]
        simp
      · rw [SupabaseDB.normalizeHB, if_neg hout, jsTrim_map_jsToUpper, jsTrim_idem,
            ← jsTrim_map_jsToUpper, jsTrim_map_jsToUpper, map_jsToUpper_idem]

theorem csvUtils_normalizeHB_idem (v : Option JSStr) :
    CsvUtils.normalizeHB (some (CsvUtils.normalizeHB v)) = CsvUtils.normalizeHB v := by
  cases v with
  | none => rfl
  | some s =>
    by_cases hs : s = []
    · simp [CsvUtils.normalizeHB, hs]
    · have hinner : CsvUtils.normalizeHB (some s) =
          (if matchesSci (jsTrim s) then
            match jsParseFloat (jsTrim s) with
            | some num => intToStr num.floor
            | none => jsTrim s
          else jsTrim s) := by
        rw [CsvUtils.normalizeHB, if_neg hs]
      rw [hinner]
      by_cases hm : matchesSci (jsTrim s)
      · rw [if_pos hm]
        cases hp : jsParseFloat (jsTrim s) with
        | some num =>
          have hne := intToStr_ne_nil num.floor
          have hnws : ∀ c ∈ intToStr num.floor, isWS c = false := fun c hc => intToStr_not_WS hc
          rw [CsvUtils.normalizeHB, if_neg hne, jsTrim_eq_self_of_all hnws]
          simp [matchesSci_intToStr]
        | none =>
          have hne : jsTrim s ≠ [] := by
            intro h
            rw [h] at hm
            simp [matchesSci] at hm
          rw [CsvUtils.normalizeHB, if_neg hne, jsTrim_idem, if_pos hm, hp]
      · rw [if_neg hm]
        by_cases hne : jsTrim s = []
        · rw [CsvUtils.normalizeHB, hne]
          simp
        · rw [CsvUtils.normalizeHB, if_neg hne, jsTrim_idem, if_neg hm]

theorem legacy_normalizeHB_idem (v : Option JSStr) :
    LegacyDB.normalizeHB (some (LegacyDB.normalizeHB v)) = LegacyDB.normalizeHB v := by
  cases v with
  | none => rfl
  | some s =>
    by_cases hs : s = []
    · simp [LegacyDB.normalizeHB, hs]
    · have hinner : LegacyDB.normalizeHB (some s) =
          (match jsParseFloat s with
           | some num => intToStr num.floor
           | none => jsTrim s) := by
        rw [LegacyDB.normalizeHB, if_neg hs]
      rw [hinner]
      cases hp : jsParseFloat s with
      | some num =>
        have hne := intToStr_ne_nil num.floor
        rw [LegacyDB.normalizeHB, if_neg hne, jsParseFloat_intToStr]
        simp [JSNum.floor_int]
      | none =>
        by_cases hne : jsTrim s = []
        · rw [LegacyDB.normalizeHB, hne]
          simp
        · rw [LegacyDB.normalizeHB, if_neg hne, jsParseFloat_jsTrim, hp, jsTrim_idem]

/-! Lemmas about the supabase staging phase. -/

/-- The insert record staged by `updateMasterList` (database.js) for a row
whose HB is not yet in the Master List. -/
def insEntry (uploadId : Nat) (now : JSStr) (r : Row) : Entry :=
  { mkItemData uploadId now r (SupabaseDB.normalizeHB r.hb) with
    first_seen_upload_id := some uploadId,
    created_at := some now }

theorem find?_filter_of_imp {α : Type} (p q : α → Bool) (l : List α)
    (h : ∀ x, q x = true → p x = true) :
    (l.filter p).find? q = l.find? q := by
  induction l with
  | nil => rfl
  | cons a t ih =>
    by_cases hq : q a
    · have hp := h a hq
      simp [List.filter_cons, hp, List.find?_cons, hq, ih]
    · by_cases hp : p a
      · simp [List.filter_cons, hp, List.find?_cons, hq, ih]
      · simp [List.filter_cons, hp, List.find?_cons, hq, ih]

theorem lookupLast_filter {l : List ExEntry} {pr : ExEntry → Bool} {hb : JSStr}
    (h : ∀ x : ExEntry, x.hb = hb → pr x = true) :
    lookupLast (l.filter pr) hb = lookupLast l hb := by
  unfold lookupLast
  rw [← List.filter_reverse]
  exact find?_filter_of_imp pr (fun e => decide (e.hb = hb)) l.reverse
    (fun x hx => h x (by simpa using hx))

theorem lookupLast_keyed {l : List ExEntry} {hb : JSStr} {e : ExEntry}
    (hnd : (l.map (fun x => x.hb)).Nodup) (hmem : e ∈ l) (hkey : e.hb = hb) :
    lookupLast l hb = some e := by
  induction l with
  | nil => simp at hmem
  | cons a t ih =>
    rw [List.map_cons, List.nodup_cons] at hnd
    rcases List.mem_cons.mp hmem with h1 | h2
    · subst h1
      have hnone : t.reverse.find? (fun x => decide (x.hb = hb)) = none := by
        apply List.find?_eq_none.mpr
        intro x hx
        simp only [decide_eq_true_eq]
        intro hxk
        exact hnd.1 (by rw [hkey, ← hxk]; exact List.mem_map_of_mem _ (List.mem_reverse.mp hx))
      unfold lookupLast
      rw [List.reverse_cons, List.find?_append, hnone]
      simp [hkey]
    · have hne : ¬ a.hb = hb := by
        intro hah
        exact hnd.1 (by rw [hah, ← hkey]; exact List.mem_map_of_mem _ h2)
      have := ih hnd.2 h2
      unfold lookupLast at this ⊢
      rw [List.reverse_cons, List.find?_append, this]
      rfl

theorem hasValueChanged_orNull_self (v : Option JSStr) :
    hasValueChanged (orNull v) v = false := by
  cases v with
  | none => rfl
  | some s =>
    by_cases hs : s = []
    · simp [orNull, hs, hasValueChanged, jsTrim, trimRightWS]
    · simp only [orNull, if_neg hs, hasValueChanged, Option.getD_some]
      by_cases ht : jsTrim s = []
      · simp [ht]
      · simp [ht]

theorem changedReasons_insEntry (uploadId : Nat) (now : JSStr) (r : Row) (i : Nat) :
    changedReasons ⟨i, (insEntry uploadId now r).hb, (insEntry uploadId now r).frl,
                    (insEntry uploadId now r).tdf, (insEntry uploadId now r).vbond⟩ r = [] := by
  show changedReasons ⟨i, _, orNull r.frl, orNull r.tdf, orNull r.vbond⟩ r = []
  unfold changedReasons
  rw [show (⟨i, (insEntry uploadId now r).hb, orNull r.frl, orNull r.tdf, orNull r.vbond⟩ :
        ExEntry).frl = orNull r.frl from rfl]
  rw [show (⟨i, (insEntry uploadId now r).hb, orNull r.frl, orNull r.tdf, orNull r.vbond⟩ :
        ExEntry).tdf = orNull r.tdf from rfl]
  rw [show (⟨i, (insEntry uploadId now r).hb, orNull r.frl, orNull r.tdf, orNull r.vbond⟩ :
        ExEntry).vbond = orNull r.vbond from rfl]
  rw [hasValueChanged_orNull_self, hasValueChanged_orNull_self, hasValueChanged_orNull_self]
  simp

theorem stage_fold_empty (uploadId : Nat) (now : JSStr) (rows : List Row)
    (acc : List Entry × List Entry) :
    rows.foldl (SupabaseDB.stageStep uploadId now []) acc =
      (acc.1 ++ (rows.filter (fun r => decide (SupabaseDB.normalizeHB r.hb ≠ []))).map
        (insEntry uploadId now), acc.2) := by
  induction rows generalizing acc with
  | nil => simp
  | cons r rows ih =>
    rw [List.foldl_cons, ih]
    by_cases hb : SupabaseDB.normalizeHB r.hb = []
    · rw [show SupabaseDB.stageStep uploadId now [] acc r = acc by
        unfold SupabaseDB.stageStep
        rw [if_pos hb]]
      rw [List.filter_cons, if_neg (by simp [hb])]
    · rw [show SupabaseDB.stageStep uploadId now [] acc r =
          (acc.1 ++ [insEntry uploadId now r], acc.2) by
        unfold SupabaseDB.stageStep
        rw [if_neg hb]
        rfl]
      rw [List.filter_cons, if_pos (by simp [hb])]
      simp [insEntry]

theorem stageStep_noop (uploadId : Nat) (now : JSStr) (exq : List ExEntry) (r : Row)
    (h : SupabaseDB.normalizeHB r.hb = [] ∨
         ∃ ex, lookupLast exq (SupabaseDB.normalizeHB r.hb) = some ex ∧ changedReasons ex r = [])
    (acc : List Entry × List Entry) :
    SupabaseDB.stageStep uploadId now exq acc r = acc := by
  unfold SupabaseDB.stageStep
  rcases h with h1 | ⟨ex, hl, hcr⟩
  · rw [if_pos h1]
  · by_cases hb0 : SupabaseDB.normalizeHB r.hb = []
    · rw [if_pos hb0]
    · rw [if_neg hb0, hl]
      simp [hcr]

theorem fold_noop (f : List Entry × List Entry → Row → List Entry × List Entry)
    (rows : List Row) (acc : List Entry × List Entry)
    (h : ∀ r ∈ rows, ∀ a, f a r = a) :
    rows.foldl f acc = acc := by
  induction rows generalizing acc with
  | nil => rfl
  | cons r rows ih =>
    rw [List.foldl_cons, h r (by simp), ih]
    intro x hx a
    exact h x (by simp [hx]) a

theorem stage_empty_inserts (uploadId : Nat) (now : JSStr) (rows : List Row) :
    SupabaseDB.updateMasterListStage uploadId now [] rows =
      ⟨(rows.filter (fun r => decide (SupabaseDB.normalizeHB r.hb ≠ []))).map
         (insEntry uploadId now),
       [],
       ((rows.filter (fun r => decide (SupabaseDB.normalizeHB r.hb ≠ []))).map
         (insEntry uploadId now)).length, 0⟩ := by
  simp only [SupabaseDB.updateMasterListStage]
  by_cases hbs0 : ((rows.map (fun r => SupabaseDB.normalizeHB r.hb)).filter
      (fun h => decide (h ≠ []))) = []
  · rw [if_pos hbs0]
    rw [List.filter_map] at hbs0
    rw [List.map_eq_nil_iff] at hbs0
    have : rows.filter (fun r => decide (SupabaseDB.normalizeHB r.hb ≠ [])) = [] := hbs0
    rw [this]
    rfl
  · rw [if_neg hbs0]
    rw [show ([] : List ExEntry).filter (fun e => decide (e.hb ∈
        (rows.map (fun r => SupabaseDB.normalizeHB r.hb)).filter (fun h => decide (h ≠ [])))) = []
      from rfl]
    rw [stage_fold_empty]
    rfl

theorem exList_keys (uploadId : Nat) (now : JSStr) (rows : List Row) (mkId : Entry → Nat) :
    ((((rows.filter (fun r => decide (SupabaseDB.normalizeHB r.hb ≠ []))).map
        (insEntry uploadId now)).map
          (fun e => (⟨mkId e, e.hb, e.frl, e.tdf, e.vbond⟩ : ExEntry))).map
            (fun x => x.hb)) =
      (rows.map (fun r => SupabaseDB.normalizeHB r.hb)).filter (fun h => decide (h ≠ [])) := by
  rw [List.map_map, List.map_map, List.filter_map]
  rfl

/-- C1: in the batched supabase `updateMasterList`, a row whose normalized
identifier already exists in the Master List stages a full-field
overwrite of that single entry (all domain fields from the row,
`last_updated_upload_id = uploadId`, `last_update_reason` the
comma-joined changed tracked-field names) and is counted as updated
exactly when at least one tracked field (FRL, TDF, VBOND) changed per
`hasValueChanged`; `hasValueChanged` reports a change exactly when the
old value was empty and the new one is not, or both are non-empty and
differ after trimming (a field becoming empty is never a change); when
no tracked field changed, nothing is staged and nothing is counted, so
re-reconciling a batch (with distinct identifiers) against the Master
List it has just populated stages nothing: `itemsAdded = 0` and
`itemsUpdated = 0`. -/
theorem C1_reconcile_update_classification :
    (∀ o n : Option JSStr,
       (hasValueChanged o n = true ↔
         ((jsTrim (o.getD []) = [] ∧ jsTrim (n.getD []) ≠ []) ∨
          (jsTrim (o.getD []) ≠ [] ∧ jsTrim (n.getD []) ≠ [] ∧
           jsTrim (o.getD []) ≠ jsTrim (n.getD [])))) ∧
       (jsTrim (n.getD []) = [] → hasValueChanged o n = false)) ∧
    (∀ (uploadId : Nat) (now : JSStr) (masterSel : List ExEntry) (r : Row) (ex : ExEntry),
       SupabaseDB.normalizeHB r.hb ≠ [] →
       lookupLast masterSel (SupabaseDB.normalizeHB r.hb) = some ex →
       SupabaseDB.updateMasterListStage uploadId now masterSel [r] =
         (if changedReasons ex r = [] then ⟨[], [], 0, 0⟩
          else ⟨[], [{ mkItemData uploadId now r (SupabaseDB.normalizeHB r.hb) with
                       id := some ex.id,
                       last_update_reason := some (joinComma (changedReasons ex r)) }], 0, 1⟩)) ∧
    (∀ (uploadId uploadId2 : Nat) (now now2 : JSStr) (rows : List Row) (mkId : Entry → Nat),
       ((rows.map (fun r => SupabaseDB.normalizeHB r.hb)).filter
         (fun h => decide (h ≠ []))).Nodup →
       SupabaseDB.updateMasterListStage uploadId2 now2
         ((SupabaseDB.updateMasterListStage uploadId now [] rows).itemsToInsert.map
           (fun e => ⟨mkId e, e.hb, e.frl, e.tdf, e.vbond⟩)) rows = ⟨[], [], 0, 0⟩) := by
  refine ⟨?_, ?_, ?_⟩
  · intro o n
    constructor
    · simp only [hasValueChanged, Bool.or_eq_true, Bool.and_eq_true, decide_eq_true_eq]
      tauto
    · intro hn
      simp only [hasValueChanged, hn]
      simp
  · intro uploadId now masterSel r ex hne hlook
    have hbsc : (([r].map (fun r => SupabaseDB.normalizeHB r.hb)).filter
        (fun h => decide (h ≠ []))) = [SupabaseDB.normalizeHB r.hb] := by
      simp [hne]
    simp only [SupabaseDB.updateMasterListStage, hbsc]
    rw [if_neg (by simp)]
    rw [List.foldl_cons, List.foldl_nil]
    have hstep : SupabaseDB.stageStep uploadId now
        (masterSel.filter (fun e => decide (e.hb ∈ [SupabaseDB.normalizeHB r.hb]))) ([], []) r =
        (if changedReasons ex r = [] then (([] : List Entry), ([] : List Entry))
         else ([], [{ mkItemData uploadId now r (SupabaseDB.normalizeHB r.hb) with
                      id := some ex.id,
                      last_update_reason := some (joinComma (changedReasons ex r)) }])) := by
      simp only [SupabaseDB.stageStep]
      rw [if_neg hne, lookupLast_filter (fun x hx => by simp [hx]), hlook]
      by_cases hcr : changedReasons ex r = []
      · simp [hcr]
      · simp [hcr]
    rw [hstep]
    by_cases hcr : changedReasons ex r = []
    · rw [if_pos hcr, if_pos hcr]
      rfl
    · rw [if_neg hcr, if_neg hcr]
      rfl
  · intro uploadId uploadId2 now now2 rows mkId hnd
    rw [stage_empty_inserts]
    show SupabaseDB.updateMasterListStage uploadId2 now2
        (((rows.filter (fun r => decide (SupabaseDB.normalizeHB r.hb ≠ []))).map
          (insEntry uploadId now)).map
            (fun e => (⟨mkId e, e.hb, e.frl, e.tdf, e.vbond⟩ : ExEntry))) rows = ⟨[], [], 0, 0⟩
    simp only [SupabaseDB.updateMasterListStage]
    by_cases hbs0 : ((rows.map (fun r => SupabaseDB.normalizeHB r.hb)).filter
        (fun h => decide (h ≠ []))) = []
    · rw [if_pos hbs0]
    · rw [if_neg hbs0, fold_noop]
      · rfl
      · intro r hr acc
        by_cases hb0 : SupabaseDB.normalizeHB r.hb = []
        · exact stageStep_noop _ _ _ _ (Or.inl hb0) acc
        · refine stageStep_noop _ _ _ _ (Or.inr ⟨⟨mkId (insEntry uploadId now r),
            (insEntry uploadId now r).hb, (insEntry uploadId now r).frl,
            (insEntry uploadId now r).tdf, (insEntry uploadId now r).vbond⟩, ?_, ?_⟩) acc
        
          · have hbmem : SupabaseDB.normalizeHB r.hb ∈
                (rows.map (fun r => SupabaseDB.normalizeHB r.hb)).filter
                  (fun h => decide (h ≠ [])) :=
              List.mem_filter.mpr ⟨List.mem_map_of_mem _ hr, by simp [hb0]⟩
            have himp : ∀ x : ExEntry, x.hb = SupabaseDB.normalizeHB r.hb →
                (decide (x.hb ∈ (rows.map (fun r => SupabaseDB.normalizeHB r.hb)).filter
                  (fun h => decide (h ≠ [])))) = true := by
              intro x hx
              simp only [decide_eq_true_eq]
              rw [hx]
              exact hbmem
            rw [lookupLast_filter himp]
            apply lookupLast_keyed
            · rw [exList_keys]
              exact hnd
            · exact List.mem_map_of_mem _ (List.mem_map_of_mem _
                (List.mem_filter.mpr ⟨hr, by simp [hb0]⟩))
            · rfl
          · exact changedReasons_insEntry uploadId now r (mkId (insEntry uploadId now r))

/-- Witness for C1: re-reconciling the one-row batch `{HB "X", FRL "5"}`
against the Master List populated from it stages nothing. -/
theorem C1_reconcile_update_classification_witness :
    SupabaseDB.updateMasterListStage 2 (ofStr "t2")
      ((SupabaseDB.updateMasterListStage 1 (ofStr "t1") []
          [{ hb := some (ofStr "X"), frl := some (ofStr "5") }]).itemsToInsert.map
        (fun e => ⟨(fun _ => 0 : Entry → Nat) e, e.hb, e.frl, e.tdf, e.vbond⟩))
      [{ hb := some (ofStr "X"), frl := some (ofStr "5") }] = ⟨[], [], 0, 0⟩ :=
  C1_reconcile_update_classification.2.2 1 2 (ofStr "t1") (ofStr "t2")
    [{ hb := some (ofStr "X"), frl := some (ofStr "5") }] (fun _ => 0) (by decide)

/-- Counterexample for C1 as frozen: the localStorage `updateMasterList`
(src/unnamed/part_000), also cited by the claim, overwrites and counts
every row whose identifier already exists — re-reconciling the identical
one-row batch returns `itemsUpdated = 1`, not `0`. -/
theorem C1_counterexample_local_always_updates :
    (LocalDB.updateMasterList 2 (ofStr "t2")
      (LocalDB.updateMasterList 1 (ofStr "t1") [] 0
        [{ hb := some (ofStr "X"), frl := some (ofStr "5") }]).masterList
      (LocalDB.updateMasterList 1 (ofStr "t1") [] 0
        [{ hb := some (ofStr "X"), frl := some (ofStr "5") }]).nextId
      [{ hb := some (ofStr "X"), frl := some (ofStr "5") }]).itemsAdded = 0 ∧
    (LocalDB.updateMasterList 2 (ofStr "t2")
      (LocalDB.updateMasterList 1 (ofStr "t1") [] 0
        [{ hb := some (ofStr "X"), frl := some (ofStr "5") }]).masterList
      (LocalDB.updateMasterList 1 (ofStr "t1") [] 0
        [{ hb := some (ofStr "X"), frl := some (ofStr "5") }]).nextId
      [{ hb := some (ofStr "X"), frl := some (ofStr "5") }]).itemsUpdated = 1 := by
  decide

/-- C2: on the lower-case identifier `62r0537240` the production
`normalizeHB` of database.js returns the upper-cased `62R0537240`
(contradicting its own comment, which promises to only trim), and on
`6.17e+08` it returns `6.17E+08` instead of `617000000`; the csvUtils
`normalizeHB` behaves as the claim states on both inputs. -/
theorem C2_normalizeHB_case_divergence :
    SupabaseDB.normalizeHB (some (ofStr "62r0537240")) = ofStr "62R0537240" ∧
    SupabaseDB.normalizeHB (some (ofStr "6.17e+08")) = ofStr "6.17E+08" ∧
    CsvUtils.normalizeHB (some (ofStr "62r0537240")) = ofStr "62r0537240" ∧
    CsvUtils.normalizeHB (some (ofStr "6.17E+08")) = ofStr "617000000" := by
  exact ⟨by decide, by decide, by decide, by decide⟩

/-- C10: all three identifier-normalization variants are idempotent — the
trim-and-upper-case variant (database.js), the scientific-notation-
converting variant (part_000 / part_002) and the `parseFloat` variant
(part_001) each return their own output unchanged when reapplied. -/
theorem C10_normalizeHB_idempotent :
    (∀ v, SupabaseDB.normalizeHB (some (SupabaseDB.normalizeHB v)) = SupabaseDB.normalizeHB v) ∧
    (∀ v, CsvUtils.normalizeHB (some (CsvUtils.normalizeHB v)) = CsvUtils.normalizeHB v) ∧
    (∀ v, LegacyDB.normalizeHB (some (LegacyDB.normalizeHB v)) = LegacyDB.normalizeHB v) :=
  ⟨supabase_normalizeHB_idem, csvUtils_normalizeHB_idem, legacy_normalizeHB_idem⟩

/-! Lemmas about the localStorage reconciler (part_000). -/

/-- Normalized non-empty identifiers of a batch, in row order. -/
def batchHbs (rows : List Row) : List JSStr :=
  (rows.map (fun r => CsvUtils.normalizeHB r.hb)).filter (fun h => decide (h ≠ []))

theorem mergeEntry_hb (e d : Entry) : (LocalDB.mergeEntry e d).hb = d.hb := rfl

theorem replaceFirstMerge_map_hb (hb : JSStr) (d : Entry) (hd : d.hb = hb) :
    ∀ l : List Entry,
      (LocalDB.replaceFirstMerge hb d l).map (fun e => e.hb) = l.map (fun e => e.hb)
  | [] => rfl
  | e :: es => by
    simp only [LocalDB.replaceFirstMerge]
    by_cases he : e.hb = hb
    · rw [if_pos he, List.map_cons, List.map_cons, mergeEntry_hb, hd, he]
    · rw [if_neg he, List.map_cons, List.map_cons, replaceFirstMerge_map_hb hb d hd es]

theorem replaceFirstMerge_append_of_not_mem {hb : JSStr} {d : Entry} {l m : List Entry}
    (h : ∀ e ∈ l, e.hb ≠ hb) :
    LocalDB.replaceFirstMerge hb d (l ++ m) = l ++ LocalDB.replaceFirstMerge hb d m := by
  induction l with
  | nil => simp
  | cons e es ih =>
    rw [List.cons_append, LocalDB.replaceFirstMerge, if_neg (h e (by simp)), List.cons_append,
        ih (fun x hx => h x (by simp [hx]))]

theorem mem_replaceFirstMerge {hb : JSStr} {d : Entry} {l : List Entry} {x : Entry}
    (hx : x ∈ LocalDB.replaceFirstMerge hb d l) :
    x ∈ l ∨ ∃ e ∈ l, e.hb = hb ∧ x = LocalDB.mergeEntry e d := by
  induction l with
  | nil => simp [LocalDB.replaceFirstMerge] at hx
  | cons e es ih =>
    by_cases he : e.hb = hb
    · rw [LocalDB.replaceFirstMerge, if_pos he] at hx
      rcases List.mem_cons.mp hx with h1 | h2
      · exact Or.inr ⟨e, by simp, he, h1⟩
      · exact Or.inl (by simp [h2])
    · rw [LocalDB.replaceFirstMerge, if_neg he] at hx
      rcases List.mem_cons.mp hx with h1 | h2
      · exact Or.inl (by simp [h1])
      · rcases ih h2 with h3 | ⟨e2, he2, hk2, hx2⟩
        · exact Or.inl (by simp [h3])
        · exact Or.inr ⟨e2, by simp [he2], hk2, hx2⟩

theorem any_hb_iff (m : List Entry) (hb : JSStr) :
    m.any (fun e => decide (e.hb = hb)) = true ↔ hb ∈ m.map (fun e => e.hb) := by
  rw [List.any_eq_true]
  constructor
  · rintro ⟨e, he, hd⟩
    simp only [decide_eq_true_eq] at hd
    rw [← hd]
    exact List.mem_map_of_mem _ he
  · intro hmem
    obtain ⟨e, he, hd⟩ := List.mem_map.mp hmem
    exact ⟨e, he, by simp [hd]⟩

theorem localStep_skip (uploadId : Nat) (now : JSStr) (st : LocalDB.LState) (r : Row)
    (h : CsvUtils.normalizeHB r.hb = []) :
    LocalDB.localStep uploadId now st r = st := by
  unfold LocalDB.localStep
  rw [if_pos h]

theorem localStep_update (uploadId : Nat) (now : JSStr) (st : LocalDB.LState) (r : Row)
    (hne : CsvUtils.normalizeHB r.hb ≠ [])
    (hmem : CsvUtils.normalizeHB r.hb ∈ st.masterList.map (fun e => e.hb)) :
    LocalDB.localStep uploadId now st r =
      { st with
        masterList := LocalDB.replaceFirstMerge (CsvUtils.normalizeHB r.hb)
          (mkItemData uploadId now r (CsvUtils.normalizeHB r.hb)) st.masterList,
        itemsUpdated := st.itemsUpdated + 1 } := by
  unfold LocalDB.localStep
  rw [if_neg hne, if_pos ((any_hb_iff _ _).mpr hmem)]

theorem localStep_insert (uploadId : Nat) (now : JSStr) (st : LocalDB.LState) (r : Row)
    (hne : CsvUtils.normalizeHB r.hb ≠ [])
    (hmem : CsvUtils.normalizeHB r.hb ∉ st.masterList.map (fun e => e.hb)) :
    LocalDB.localStep uploadId now st r =
      { st with
        masterList := st.masterList ++
          [{ mkItemData uploadId now r (CsvUtils.normalizeHB r.hb) with
             id := some st.nextId,
             first_seen_upload_id := some uploadId,
             created_at := some now }],
        nextId := st.nextId + 1,
        itemsAdded := st.itemsAdded + 1 } := by
  unfold LocalDB.localStep
  rw [if_neg hne, if_neg (fun h => hmem ((any_hb_iff _ _).mp h))]


theorem mergeEntry_first_seen (e d : Entry) :
    (LocalDB.mergeEntry e d).first_seen_upload_id = e.first_seen_upload_id := rfl

theorem max_eq_left_of_le {a b : Nat} (h : b ≤ a) : max a b = a := Nat.max_eq_left h

theorem local_fold_invariant (uploadId : Nat) (now : JSStr) :
    ∀ (rows : List Row) (st : LocalDB.LState),
    (∀ e ∈ st.masterList, e.hb ≠ []) →
    ((st.masterList.map (fun e => e.hb)).Nodup) →
    ((∀ e ∈ (rows.foldl (LocalDB.localStep uploadId now) st).masterList, e.hb ≠ []) ∧
     (((rows.foldl (LocalDB.localStep uploadId now) st).masterList.map (fun e => e.hb)).Nodup) ∧
     (∀ h : JSStr, h ≠ [] →
        ((rows.foldl (LocalDB.localStep uploadId now) st).masterList.map
          (fun e => e.hb)).count h =
          max ((st.masterList.map (fun e => e.hb)).count h)
              (if h ∈ batchHbs rows then 1 else 0)) ∧
     (∀ e ∈ (rows.foldl (LocalDB.localStep uploadId now) st).masterList,
        (∃ e0 ∈ st.masterList, e.hb = e0.hb ∧
          e.first_seen_upload_id = e0.first_seen_upload_id) ∨
        e.first_seen_upload_id = some uploadId)) := by
  intro rows
  induction rows with
  | nil =>
    intro st hne hnd
    refine ⟨hne, hnd, ?_, ?_⟩
    · intro h hh
      simp [batchHbs]
    · intro e he
      exact Or.inl ⟨e, he, rfl, rfl⟩
  | cons r rows ih =>
    intro st hne hnd
    rw [List.foldl_cons]
    by_cases hb0 : CsvUtils.normalizeHB r.hb = []
    · rw [localStep_skip _ _ _ _ hb0]
      have hbatch : batchHbs (r :: rows) = batchHbs rows := by
        simp [batchHbs, List.filter_cons, hb0]
      obtain ⟨a, b, c, d⟩ := ih st hne hnd
      refine ⟨a, b, ?_, d⟩
      intro h hh
      rw [hbatch]
      exact c h hh
    · have hbatch : batchHbs (r :: rows) = CsvUtils.normalizeHB r.hb :: batchHbs rows := by
        simp [batchHbs, List.filter_cons, hb0]
      by_cases hmem : CsvUtils.normalizeHB r.hb ∈ st.masterList.map (fun e => e.hb)
      · rw [localStep_update _ _ _ _ hb0 hmem]
        have hkeys : (LocalDB.replaceFirstMerge (CsvUtils.normalizeHB r.hb)
            (mkItemData uploadId now r (CsvUtils.normalizeHB r.hb)) st.masterList).map
              (fun e => e.hb) = st.masterList.map (fun e => e.hb) :=
          replaceFirstMerge_map_hb (CsvUtils.normalizeHB r.hb)
            (mkItemData uploadId now r (CsvUtils.normalizeHB r.hb)) rfl st.masterList
        have hne2 : ∀ e ∈ LocalDB.replaceFirstMerge (CsvUtils.normalizeHB r.hb)
            (mkItemData uploadId now r (CsvUtils.normalizeHB r.hb)) st.masterList, e.hb ≠ [] := by
          intro e he
          have hm : e.hb ∈ st.masterList.map (fun e2 => e2.hb) := by
            rw [← hkeys]
            exact List.mem_map_of_mem _ he
          obtain ⟨e2, he2, heq⟩ := List.mem_map.mp hm
          rw [← heq]
          exact hne e2 he2
        have hnd2 : ((LocalDB.replaceFirstMerge (CsvUtils.normalizeHB r.hb)
            (mkItemData uploadId now r (CsvUtils.normalizeHB r.hb)) st.masterList).map
              (fun e => e.hb)).Nodup := by
          rw [hkeys]
          exact hnd
        obtain ⟨a, b, c, d⟩ := ih { st with
            masterList := LocalDB.replaceFirstMerge (CsvUtils.normalizeHB r.hb)
              (mkItemData uploadId now r (CsvUtils.normalizeHB r.hb)) st.masterList,
            itemsUpdated := st.itemsUpdated + 1 } hne2 hnd2
        refine ⟨a, b, ?_, ?_⟩
        · intro h hh
          rw [c h hh]
          show max (((LocalDB.replaceFirstMerge (CsvUtils.normalizeHB r.hb)
            (mkItemData uploadId now r (CsvUtils.normalizeHB r.hb)) st.masterList).map
              (fun e => e.hb)).count h) _ = _
          rw [hkeys, hbatch]
          by_cases hhr : h = CsvUtils.normalizeHB r.hb
          · have hcnt : 1 ≤ (st.masterList.map (fun e => e.hb)).count h := by
              rw [← hhr] at hmem
              exact List.count_pos_iff.mpr hmem
            have hcons : h ∈ CsvUtils.normalizeHB r.hb :: batchHbs rows := by
              rw [hhr]
              exact List.mem_cons_self _ _
            rw [if_pos hcons]
            by_cases hmem2 : h ∈ batchHbs rows
            · rw [if_pos hmem2]
            · rw [if_neg hmem2, max_eq_left_of_le (Nat.zero_le _), max_eq_left_of_le hcnt]
          · rw [show (if h ∈ CsvUtils.normalizeHB r.hb :: batchHbs rows then 1 else 0) =
                (if h ∈ batchHbs rows then 1 else 0) by simp [List.mem_cons, hhr]]
        · intro e hefin
          rcases d e hefin with ⟨e0, he0, hhb, hfs⟩ | h2
          · rcases mem_replaceFirstMerge he0 with h3 | ⟨e1, he1, hk1, heq1⟩
            · exact Or.inl ⟨e0, h3, hhb, hfs⟩
            · refine Or.inl ⟨e1, he1, ?_, ?_⟩
              · rw [hhb, heq1, mergeEntry_hb]
                exact hk1.symm ▸ rfl
              · rw [hfs, heq1, mergeEntry_first_seen]
          · exact Or.inr h2
      · rw [localStep_insert _ _ _ _ hb0 hmem]
        have hkeys : ((st.masterList ++
            [{ mkItemData uploadId now r (CsvUtils.normalizeHB r.hb) with
               id := some st.nextId,
               first_seen_upload_id := some uploadId,
               created_at := some now }]).map (fun e : Entry => e.hb)) =
            st.masterList.map (fun e : Entry => e.hb) ++ [CsvUtils.normalizeHB r.hb] := by
          rw [List.map_append]
          rfl
        have hne2 : ∀ e ∈ st.masterList ++
            [{ mkItemData uploadId now r (CsvUtils.normalizeHB r.hb) with
               id := some st.nextId,
               first_seen_upload_id := some uploadId,
               created_at := some now }], e.hb ≠ [] := by
          intro e he
          rcases List.mem_append.mp he with h1 | h2
          · exact hne e h1
          · rw [List.mem_singleton.mp h2]
            exact hb0
        have hnd2 : (((st.masterList ++
            [{ mkItemData uploadId now r (CsvUtils.normalizeHB r.hb) with
               id := some st.nextId,
               first_seen_upload_id := some uploadId,
               created_at := some now }]).map (fun e : Entry => e.hb))).Nodup := by
          rw [hkeys, List.nodup_append]
          exact ⟨hnd, List.nodup_singleton _, by simp [hmem]⟩
        obtain ⟨a, b, c, d⟩ := ih { st with
            masterList := st.masterList ++
              [{ mkItemData uploadId now r (CsvUtils.normalizeHB r.hb) with
                 id := some st.nextId,
                 first_seen_upload_id := some uploadId,
                 created_at := some now }],
            nextId := st.nextId + 1,
            itemsAdded := st.itemsAdded + 1 } hne2 hnd2
        refine ⟨a, b, ?_, ?_⟩
        · intro h hh
          rw [c h hh, hkeys, hbatch, List.count_append]
          by_cases hhr : h = CsvUtils.normalizeHB r.hb
          · have hc0 : (st.masterList.map (fun e => e.hb)).count h = 0 := by
              rw [List.count_eq_zero, hhr]
              exact hmem
            have hc1 : ([CsvUtils.normalizeHB r.hb] : List JSStr).count h = 1 := by
              rw [hhr]
              simp
            have hcons : h ∈ CsvUtils.normalizeHB r.hb :: batchHbs rows := by
              rw [hhr]
              exact List.mem_cons_self _ _
            rw [hc0, hc1, if_pos hcons]
            by_cases hmem2 : h ∈ batchHbs rows
            · rw [if_pos hmem2]
              simp
            · rw [if_neg hmem2, max_eq_left_of_le (Nat.zero_le _)]
              simp
          · have hc1 : ([CsvUtils.normalizeHB r.hb] : List JSStr).count h = 0 := by
              rw [List.count_eq_zero]
              simp only [List.mem_singleton]
              intro hcon
              exact hhr hcon
            rw [hc1, show (if h ∈ CsvUtils.normalizeHB r.hb :: batchHbs rows then 1 else 0) =
                (if h ∈ batchHbs rows then 1 else 0) by simp [List.mem_cons, hhr]]
            simp
        · intro e hefin
          rcases d e hefin with ⟨e0, he0, hhb, hfs⟩ | h2
          · rcases List.mem_append.mp he0 with h3 | h4
            · exact Or.inl ⟨e0, h3, hhb, hfs⟩
            · right
              rw [hfs, List.mem_singleton.mp h4]
          · exact Or.inr h2

theorem local_two_row_last_wins (uploadId : Nat) (now : JSStr) (master : List Entry)
    (nextId : Nat) (r1 r2 : Row)
    (hmaster : ∀ e ∈ master, e.hb ≠ CsvUtils.normalizeHB r2.hb)
    (heq : CsvUtils.normalizeHB r1.hb = CsvUtils.normalizeHB r2.hb)
    (hne : CsvUtils.normalizeHB r2.hb ≠ []) :
    (LocalDB.updateMasterList uploadId now master nextId [r1, r2]).masterList =
      master ++ [{ mkItemData uploadId now r2 (CsvUtils.normalizeHB r2.hb) with
                   id := some nextId,
                   first_seen_upload_id := some uploadId,
                   created_at := some now }] := by
  unfold LocalDB.updateMasterList
  rw [List.foldl_cons, List.foldl_cons, List.foldl_nil]
  have hmem1 : CsvUtils.normalizeHB r1.hb ∉
      (⟨master, nextId, 0, 0⟩ : LocalDB.LState).masterList.map (fun e => e.hb) := by
    rw [heq]
    intro hc
    obtain ⟨e, he, hehb⟩ := List.mem_map.mp hc
    exact hmaster e he hehb
  rw [localStep_insert _ _ _ _ (by rw [heq]; exact hne) hmem1]
  have hE1hb : ({ mkItemData uploadId now r1 (CsvUtils.normalizeHB r1.hb) with
      id := some (⟨master, nextId, 0, 0⟩ : LocalDB.LState).nextId,
      first_seen_upload_id := some uploadId,
      created_at := some now } : Entry).hb = CsvUtils.normalizeHB r1.hb := rfl
  have hmem2 : CsvUtils.normalizeHB r2.hb ∈
      ((⟨master, nextId, 0, 0⟩ : LocalDB.LState).masterList ++
        [{ mkItemData uploadId now r1 (CsvUtils.normalizeHB r1.hb) with
           id := some (⟨master, nextId, 0, 0⟩ : LocalDB.LState).nextId,
           first_seen_upload_id := some uploadId,
           created_at := some now }]).map (fun e : Entry => e.hb) := by
    rw [List.map_append]
    apply List.mem_append_right
    rw [show ([{ mkItemData uploadId now r1 (CsvUtils.normalizeHB r1.hb) with
           id := some (⟨master, nextId, 0, 0⟩ : LocalDB.LState).nextId,
           first_seen_upload_id := some uploadId,
           created_at := some now }] : List Entry).map (fun e : Entry => e.hb) =
        [CsvUtils.normalizeHB r1.hb] from rfl, heq]
    exact List.mem_singleton.mpr rfl
  rw [localStep_update _ _ _ _ hne hmem2]
  show LocalDB.replaceFirstMerge (CsvUtils.normalizeHB r2.hb)
      (mkItemData uploadId now r2 (CsvUtils.normalizeHB r2.hb))
      (master ++ [{ mkItemData uploadId now r1 (CsvUtils.normalizeHB r1.hb) with
                    id := some nextId,
                    first_seen_upload_id := some uploadId,
                    created_at := some now }]) = _
  rw [replaceFirstMerge_append_of_not_mem hmaster]
  have hrep : LocalDB.replaceFirstMerge (CsvUtils.normalizeHB r2.hb)
      (mkItemData uploadId now r2 (CsvUtils.normalizeHB r2.hb))
      [{ mkItemData uploadId now r1 (CsvUtils.normalizeHB r1.hb) with
         id := some nextId,
         first_seen_upload_id := some uploadId,
         created_at := some now }] =
      [{ mkItemData uploadId now r2 (CsvUtils.normalizeHB r2.hb) with
         id := some nextId,
         first_seen_upload_id := some uploadId,
         created_at := some now }] := by
    unfold LocalDB.replaceFirstMerge
    rw [if_pos (by rw [hE1hb, heq])]
    rfl
  rw [hrep]

/-- C3: for the sequential localStorage reconciler (part_000): with a
well-formed Master List (non-empty, duplicate-free identifiers),
reconciliation keeps identifiers unique; every previously-unseen
non-empty normalized identifier of the batch ends with exactly one
entry, whose `first_seen_upload_id` is the ingesting upload; and a batch
of two rows with the same previously-unseen identifier resolves
last-row-wins: the single resulting entry carries the second row's
values (with the id, `first_seen_upload_id` and `created_at` minted at
the first row's insertion). -/
theorem C3_local_reconcile_uniqueness :
    (∀ (uploadId : Nat) (now : JSStr) (master : List Entry) (nextId : Nat) (rows : List Row),
       (∀ e ∈ master, e.hb ≠ []) →
       ((master.map (fun e => e.hb)).Nodup) →
       (((LocalDB.updateMasterList uploadId now master nextId rows).masterList.map
           (fun e => e.hb)).Nodup) ∧
       (∀ h, h ≠ [] → h ∉ master.map (fun e => e.hb) → h ∈ batchHbs rows →
          ((LocalDB.updateMasterList uploadId now master nextId rows).masterList.map
             (fun e => e.hb)).count h = 1 ∧
          (∀ e ∈ (LocalDB.updateMasterList uploadId now master nextId rows).masterList,
             e.hb = h → e.first_seen_upload_id = some uploadId))) ∧
    (∀ (uploadId : Nat) (now : JSStr) (master : List Entry) (nextId : Nat) (r1 r2 : Row),
       (∀ e ∈ master, e.hb ≠ CsvUtils.normalizeHB r2.hb) →
       CsvUtils.normalizeHB r1.hb = CsvUtils.normalizeHB r2.hb →
       CsvUtils.normalizeHB r2.hb ≠ [] →
       (LocalDB.updateMasterList uploadId now master nextId [r1, r2]).masterList =
         master ++ [{ mkItemData uploadId now r2 (CsvUtils.normalizeHB r2.hb) with
                      id := some nextId,
                      first_seen_upload_id := some uploadId,
                      created_at := some now }]) := by
  constructor
  · intro uploadId now master nextId rows hne hnd
    obtain ⟨a, b, c, d⟩ := local_fold_invariant uploadId now rows ⟨master, nextId, 0, 0⟩ hne hnd
    refine ⟨b, ?_⟩
    intro h hh hnotin hbatch
    constructor
    · rw [show LocalDB.updateMasterList uploadId now master nextId rows =
          rows.foldl (LocalDB.localStep uploadId now) ⟨master, nextId, 0, 0⟩ from rfl]
      rw [c h hh]
      have hc0 : ((⟨master, nextId, 0, 0⟩ : LocalDB.LState).masterList.map
          (fun e => e.hb)).count h = 0 := List.count_eq_zero.mpr hnotin
      rw [hc0, if_pos hbatch]
      rfl
    · intro e he hhb
      rcases d e he with ⟨e0, he0, hhb0, hfs0⟩ | h2
      · exact absurd (by rw [← hhb, hhb0]; exact List.mem_map_of_mem _ he0) hnotin
      · exact h2
  · exact local_two_row_last_wins

/-- Witness for C3: a two-row batch with the duplicated new identifier
`X` against an empty Master List yields the single entry built from the
second row. -/
theorem C3_local_reconcile_uniqueness_witness :
    (LocalDB.updateMasterList 1 (ofStr "t") [] 0
      [{ hb := some (ofStr "X"), frl := some (ofStr "1") },
       { hb := some (ofStr "X"), frl := some (ofStr "2") }]).masterList =
      [] ++ [{ mkItemData 1 (ofStr "t")
               { hb := some (ofStr "X"), frl := some (ofStr "2") }
               (CsvUtils.normalizeHB (some (ofStr "X"))) with
               id := some 0, first_seen_upload_id := some 1,
               created_at := some (ofStr "t") }] :=
  C3_local_reconcile_uniqueness.2 1 (ofStr "t") [] 0
    { hb := some (ofStr "X"), frl := some (ofStr "1") }
    { hb := some (ofStr "X"), frl := some (ofStr "2") }
    (by simp) (by decide) (by decide)

/-- Counterexample for C3 as frozen: the batched supabase
`updateMasterList` looks new rows up only against pre-existing entries,
so a batch with two rows sharing one previously-unseen identifier stages
two insert records for that identifier (both counted), not one
last-row-wins entry. -/
theorem C3_counterexample_stage_duplicate_inserts :
    ((SupabaseDB.updateMasterListStage 1 (ofStr "t") []
      [{ hb := some (ofStr "X"), frl := some (ofStr "1") },
       { hb := some (ofStr "X"), frl := some (ofStr "2") }]).itemsToInsert.map
        (fun e => e.hb) = [ofStr "X", ofStr "X"]) ∧
    (SupabaseDB.updateMasterListStage 1 (ofStr "t") []
      [{ hb := some (ofStr "X"), frl := some (ofStr "1") },
       { hb := some (ofStr "X"), frl := some (ofStr "2") }]).itemsAdded = 2 := by
  decide

/-! C4: chronological previous-upload selection. -/

/-- The descending argmax fold used by `SupabaseDB.prevUpload`: the
result comes from the list (or the accumulator) and dominates every
list element and the accumulator by `upload_date`. -/
theorem prevFold_spec (l : List Upload) : ∀ (acc : Option Upload),
    ((l.foldl (fun acc u =>
        match acc with
        | none => some u
        | some b => if b.upload_date < u.upload_date then some u else acc) acc = none) ↔
      (l = [] ∧ acc = none)) ∧
    (∀ u, l.foldl (fun acc u =>
        match acc with
        | none => some u
        | some b => if b.upload_date < u.upload_date then some u else acc) acc = some u →
      (u ∈ l ∨ acc = some u) ∧ (∀ v ∈ l, v.upload_date ≤ u.upload_date) ∧
      (∀ b, acc = some b → b.upload_date ≤ u.upload_date)) := by
  induction l with
  | nil =>
    intro acc
    refine ⟨by simp, ?_⟩
    intro u hu
    simp only [List.foldl_nil] at hu
    exact ⟨Or.inr hu, by simp, fun b hb => by rw [hb] at hu; cases hu; exact le_refl _⟩
  | cons x t ih =>
    intro acc
    have hstep : ∀ a : Option Upload,
        (match a with
         | none => some x
         | some b => if b.upload_date < x.upload_date then some x else a) = some x ∨
        ((match a with
          | none => some x
          | some b => if b.upload_date < x.upload_date then some x else a) = a ∧
         ∃ b, a = some b ∧ x.upload_date ≤ b.upload_date) := by
      intro a
      match a with
      | none => exact Or.inl rfl
      | some b =>
        by_cases hlt : b.upload_date < x.upload_date
        · exact Or.inl (by simp [hlt])
        · exact Or.inr ⟨by simp [hlt], b, rfl, Nat.le_of_not_lt hlt⟩
    constructor
    · simp only [List.foldl_cons]
      constructor
      · intro hn
        exfalso
        rcases hstep acc with h1 | ⟨h1, b, hb, _⟩
        · rw [h1] at hn
          exact absurd ((ih (some x)).1.mp hn).2 (by simp)
        · rw [h1, hb] at hn
          exact absurd ((ih (some b)).1.mp hn).2 (by simp)
      · rintro ⟨h1, _⟩
        exact absurd h1 (by simp)
    · intro u hu
      simp only [List.foldl_cons] at hu
      rcases hstep acc with h1 | ⟨h1, b, hb, hxb⟩
      · rw [h1] at hu
        rcases (ih (some x)).2 u hu with ⟨hmem, hdom, hxle⟩
        have hxu : x.upload_date ≤ u.upload_date := hxle x rfl
        refine ⟨?_, ?_, ?_⟩
        · rcases hmem with hm | hm
          · exact Or.inl (List.mem_cons_of_mem _ hm)
          · cases hm
            exact Or.inl (List.mem_cons_self _ _)
        · intro v hv
          rcases List.mem_cons.mp hv with hv | hv
          · rw [hv]; exact hxu
          · exact hdom v hv
        · intro b0 hb0
          rw [hb0] at h1
          by_cases hlt : b0.upload_date < x.upload_date
          · exact le_of_lt (lt_of_lt_of_le hlt hxu)
          · have h3 : some b0 = some x := by
              rw [← h1]
              simp [hlt]
            cases h3
            exact hxu
      · rw [h1] at hu
        rcases (ih acc).2 u hu with ⟨hmem, hdom, hale⟩
        have hbu : b.upload_date ≤ u.upload_date := hale b hb
        refine ⟨?_, ?_, ?_⟩
        · rcases hmem with hm | hm
          · exact Or.inl (List.mem_cons_of_mem _ hm)
          · exact Or.inr hm
        · intro v hv
          rcases List.mem_cons.mp hv with hv | hv
          · rw [hv]; exact le_trans hxb hbu
          · exact hdom v hv
        · exact hale

/-- C4: the comparison operations of src/src/lib/database.js do select
the chronological predecessor: `prevUpload` yields `none` exactly when
no upload is strictly earlier (by `upload_date`) than the current
upload's date, and any selected upload is a stored upload, strictly
earlier, and latest among the strictly earlier ones. (The claim's "never
selects by list/array position or by identifier ordering" fails for the
other two cited implementations; see the counterexample.) -/
theorem C4_previous_upload_selection (uploads : List Upload) (curDate : Nat) :
    ((SupabaseDB.prevUpload uploads curDate = none) ↔
      ∀ u ∈ uploads, ¬ u.upload_date < curDate) ∧
    (∀ u, SupabaseDB.prevUpload uploads curDate = some u →
      u ∈ uploads ∧ u.upload_date < curDate ∧
      ∀ v ∈ uploads, v.upload_date < curDate → v.upload_date ≤ u.upload_date) := by
  constructor
  · rw [SupabaseDB.prevUpload]
    rw [show (∀ u ∈ uploads, ¬ u.upload_date < curDate) ↔
        (uploads.filter (fun u => decide (u.upload_date < curDate)) = [] ∧
         (none : Option Upload) = none) from ?_]
    · exact (prevFold_spec _ none).1
    · simp [List.filter_eq_nil_iff]
  · intro u hu
    rw [SupabaseDB.prevUpload] at hu
    rcases (prevFold_spec _ none).2 u hu with ⟨hmem, hdom, _⟩
    rcases hmem with hm | hm
    · have hmem' := List.mem_filter.mp hm
      refine ⟨hmem'.1, by simpa using hmem'.2, ?_⟩
      intro v hv hvd
      exact hdom v (List.mem_filter.mpr ⟨hv, by simpa using hvd⟩)
    · exact absurd hm (by simp)

/-- Witness for C4 at a concrete upload list: with dates 5, 100, 50 and
current date 100, the predecessor is the date-50 upload. -/
theorem C4_previous_upload_selection_witness :
    SupabaseDB.prevUpload [⟨1, 5⟩, ⟨2, 100⟩, ⟨3, 50⟩] 100 = some ⟨3, 50⟩ ∧
    (⟨3, 50⟩ : Upload) ∈ [⟨1, 5⟩, ⟨2, 100⟩, ⟨3, 50⟩] ∧ 50 < 100 ∧
    ¬ SupabaseDB.prevUpload [⟨1, 5⟩, ⟨2, 100⟩, ⟨3, 50⟩] 100 = none := by
  have h : SupabaseDB.prevUpload [⟨1, 5⟩, ⟨2, 100⟩, ⟨3, 50⟩] 100 = some ⟨3, 50⟩ := by
    decide
  refine ⟨h, ?_, by decide, ?_⟩
  · exact ((C4_previous_upload_selection [⟨1, 5⟩, ⟨2, 100⟩, ⟨3, 50⟩] 100).2 ⟨3, 50⟩ h).1
  · intro hn
    have := (C4_previous_upload_selection [⟨1, 5⟩, ⟨2, 100⟩, ⟨3, 50⟩] 100).1.mp hn
      ⟨1, 5⟩ (by decide)
    exact this (by decide)

/-- Counterexample for C4 as frozen: on uploads with ids 1, 2, 3 and
dates 5, 100, 50, both the older supabase module (selection by id) and
the localStorage module (selection by array position) pick the date-5
upload as "previous" for the current upload id 2, while the
chronological predecessor is the date-50 upload. -/
theorem C4_counterexample_positional_and_id_selection :
    LegacyDB.prevUpload [⟨1, 5⟩, ⟨2, 100⟩, ⟨3, 50⟩] 2 = some ⟨1, 5⟩ ∧
    LocalDB.prevUpload [⟨2, 100⟩, ⟨1, 5⟩, ⟨3, 50⟩] 2 = some ⟨1, 5⟩ ∧
    SupabaseDB.prevUpload [⟨1, 5⟩, ⟨2, 100⟩, ⟨3, 50⟩] 100 = some ⟨3, 50⟩ ∧
    SupabaseDB.prevUpload [⟨2, 100⟩, ⟨1, 5⟩, ⟨3, 50⟩] 100 = some ⟨3, 50⟩ ∧
    (⟨1, 5⟩ : Upload) ≠ ⟨3, 50⟩ := by
  decide

/-! C5: new/removed item counts versus identifier set differences. -/

/-- Filtering rows on their HB projection counts the same as filtering
the projected HB list. -/
theorem filter_hb_not_mem_length (cs : List RDRow) (ps : List (Option JSStr)) :
    (cs.filter (fun r => decide (r.hb ∉ ps))).length =
      ((cs.map (fun r => r.hb)).filter (fun h => decide (h ∉ ps))).length := by
  rw [List.filter_map, List.length_map]
  rfl

/-- On a duplicate-free list, counting the elements absent from `ps` is
the cardinality of the set difference. -/
theorem filter_not_mem_length_eq_sdiff_card (l ps : List (Option JSStr)) (hnd : l.Nodup) :
    (l.filter (fun h => decide (h ∉ ps))).length = (l.toFinset \ ps.toFinset).card := by
  have h1 : (l.filter (fun h => decide (h ∉ ps))).Nodup := hnd.filter _
  rw [← List.toFinset_card_of_nodup h1]
  congr 1
  ext a
  simp [List.mem_filter, Finset.mem_sdiff]

/-- C5 (corrected): when the current upload has no chronological
predecessor, `detectNewItems` and `detectRemovedItems` both return `0`
(not "everything is new"); when a predecessor exists, the counts are
row counts over the current (resp. previous) upload's non-empty-HB rows,
which agree with the claimed identifier-set-difference sizes exactly
when the counted side's HB list is duplicate-free. -/
theorem C5_diff_counts_vs_sets :
    (∀ (uploads : List Upload) (rd : List RDRow) (cid : Nat) (cu : Upload),
       uploads.find? (fun u => decide (u.id = cid)) = some cu →
       SupabaseDB.prevUpload uploads cu.upload_date = none →
       SupabaseDB.detectNewItems uploads rd cid = 0 ∧
       SupabaseDB.detectRemovedItems uploads rd cid = 0) ∧
    (∀ (uploads : List Upload) (rd : List RDRow) (cid : Nat) (cu pu : Upload),
       uploads.find? (fun u => decide (u.id = cid)) = some cu →
       SupabaseDB.prevUpload uploads cu.upload_date = some pu →
       ((((rowsOf rd cid).filter hbPresent).map (fun r => r.hb)).Nodup →
        SupabaseDB.detectNewItems uploads rd cid =
          ((((rowsOf rd cid).filter hbPresent).map (fun r => r.hb)).toFinset \
           (((rowsOf rd pu.id).filter hbPresent).map (fun r => r.hb)).toFinset).card) ∧
       ((((rowsOf rd pu.id).filter hbPresent).map (fun r => r.hb)).Nodup →
        SupabaseDB.detectRemovedItems uploads rd cid =
          ((((rowsOf rd pu.id).filter hbPresent).map (fun r => r.hb)).toFinset \
           (((rowsOf rd cid).filter hbPresent).map (fun r => r.hb)).toFinset).card)) := by
  constructor
  · intro uploads rd cid cu hfind hprev
    constructor
    · simp only [SupabaseDB.detectNewItems, hfind, hprev]
    · simp only [SupabaseDB.detectRemovedItems, hfind, hprev]
  · intro uploads rd cid cu pu hfind hprev
    constructor
    · intro hnd
      simp only [SupabaseDB.detectNewItems, hfind, hprev]
      rw [filter_hb_not_mem_length]
      exact filter_not_mem_length_eq_sdiff_card _ _ hnd
    · intro hnd
      simp only [SupabaseDB.detectRemovedItems, hfind, hprev]
      rw [filter_hb_not_mem_length]
      exact filter_not_mem_length_eq_sdiff_card _ _ hnd

/-- Witness for C5: a lone upload (no predecessor) with one non-empty
identifier row yields both counts `0`. -/
theorem C5_diff_counts_vs_sets_witness :
    SupabaseDB.detectNewItems [⟨1, 10⟩] [⟨1, some (ofStr "X"), none⟩] 1 = 0 ∧
    SupabaseDB.detectRemovedItems [⟨1, 10⟩] [⟨1, some (ofStr "X"), none⟩] 1 = 0 :=
  C5_diff_counts_vs_sets.1 [⟨1, 10⟩] [⟨1, some (ofStr "X"), none⟩] 1 ⟨1, 10⟩
    (by decide) (by decide)

/-- Counterexample for C5 as frozen: with no previous upload the code
returns `0` new items although the current batch carries one non-empty
identifier (the claim says every identifier is then new); and with a
previous upload, a current batch repeating one new identifier in two
rows is counted as `2` new items although the new-identifier set has
size `1`. -/
theorem C5_counterexample_no_previous_and_multiplicity :
    (SupabaseDB.detectNewItems [⟨1, 10⟩] [⟨1, some (ofStr "A"), none⟩] 1 = 0 ∧
     ((rowsOf [⟨1, some (ofStr "A"), none⟩] 1).filter hbPresent).length = 1) ∧
    (SupabaseDB.detectNewItems [⟨1, 10⟩, ⟨2, 20⟩]
       [⟨1, some (ofStr "Y"), none⟩,
        ⟨2, some (ofStr "X"), none⟩, ⟨2, some (ofStr "X"), none⟩] 2 = 2 ∧
     ((((rowsOf [⟨1, some (ofStr "Y"), none⟩,
          ⟨2, some (ofStr "X"), none⟩, ⟨2, some (ofStr "X"), none⟩] 2).filter
            hbPresent).map (fun r => r.hb)).toFinset \
      (((rowsOf [⟨1, some (ofStr "Y"), none⟩,
          ⟨2, some (ofStr "X"), none⟩, ⟨2, some (ofStr "X"), none⟩] 1).filter
            hbPresent).map (fun r => r.hb)).toFinset).card = 1) := by
  decide

/-! C6: characterization of newly-released detection. -/

/-- A non-empty normalized FRL forces the raw FRL to pass the SQL
non-null/non-empty filter. -/
theorem frlPresent_of_norm_ne (r : RDRow) (h : normalizeFrlForComparison r.frl ≠ []) :
    frlPresent r = true := by
  match hx : r.frl with
  | none =>
    simp only [normalizeFrlForComparison, hx] at h
    exact absurd rfl h
  | some s =>
    simp only [normalizeFrlForComparison, hx] at h
    have hs : s ≠ [] := by
      intro hnil
      rw [hnil] at h
      simp at h
    rw [frlPresent, hx]
    simp [hs]

/-- The raw-FRL filter conjoined with the map test equals the claimed
predicate: non-empty normalized current FRL, and previous entry absent
or normalized-empty. -/
theorem newlyFrld_pred_pointwise (prev : List RDRow) (r : RDRow) :
    ((match SupabaseDB.lastPrevRow prev r.hb with
       | none => decide (normalizeFrlForComparison r.frl ≠ [])
       | some p =>
         if normalizeFrlForComparison p.frl = [] then
           decide (normalizeFrlForComparison r.frl ≠ [])
         else false) &&
      frlPresent r) =
    (decide (normalizeFrlForComparison r.frl ≠ []) &&
      (match SupabaseDB.lastPrevRow prev r.hb with
       | none => true
       | some p => decide (normalizeFrlForComparison p.frl = []))) := by
  cases hl : SupabaseDB.lastPrevRow prev r.hb with
  | none =>
    by_cases hn : normalizeFrlForComparison r.frl = []
    · simp [hn]
    · simp [hn, frlPresent_of_norm_ne r hn]
  | some p =>
    by_cases hp : normalizeFrlForComparison p.frl = []
    · by_cases hn : normalizeFrlForComparison r.frl = []
      · simp [hp, hn]
      · simp [hp, hn, frlPresent_of_norm_ne r hn]
    · simp [hp]

/-- C6: a current row is counted by the newly-released detector iff its
FRL normalizes to non-empty and its HB either has no row in the previous
upload or its (last) previous row's FRL normalizes to empty; in
particular, when every current row's HB maps to a previous row whose FRL
normalizes to non-empty — as with the same calendar date in serial
versus MM/DD/YYYY encoding — nothing is counted. -/
theorem C6_newly_frld_characterization (current prev : List RDRow) :
    (SupabaseDB.newlyFrldCore current prev =
      (current.filter (fun r =>
        decide (normalizeFrlForComparison r.frl ≠ []) &&
        (match SupabaseDB.lastPrevRow prev r.hb with
         | none => true
         | some p => decide (normalizeFrlForComparison p.frl = [])))).length) ∧
    ((∀ r ∈ current, ∃ p, SupabaseDB.lastPrevRow prev r.hb = some p ∧
        normalizeFrlForComparison p.frl ≠ []) →
      SupabaseDB.newlyFrldCore current prev = 0) := by
  have hfirst : SupabaseDB.newlyFrldCore current prev =
      (current.filter (fun r =>
        decide (normalizeFrlForComparison r.frl ≠ []) &&
        (match SupabaseDB.lastPrevRow prev r.hb with
         | none => true
         | some p => decide (normalizeFrlForComparison p.frl = [])))).length := by
    rw [SupabaseDB.newlyFrldCore]
    rw [List.filter_filter]
    congr 1
    apply List.filter_congr
    intro r _
    exact newlyFrld_pred_pointwise prev r
  refine ⟨hfirst, ?_⟩
  intro hall
  rw [hfirst, List.length_eq_zero, List.filter_eq_nil_iff]
  intro r hr
  obtain ⟨p, hp, hpe⟩ := hall r hr
  simp [hp, hpe]

/-- Witness for C6: current FRL is the spreadsheet serial 45000,
previous FRL is "03/15/2023" — two encodings of the same calendar date;
the detector counts nothing. -/
theorem C6_newly_frld_characterization_witness :
    SupabaseDB.newlyFrldCore
      [⟨2, some (ofStr "A"), some (ofStr "45000")⟩]
      [⟨1, some (ofStr "A"), some (ofStr "03/15/2023")⟩] = 0 :=
  (C6_newly_frld_characterization
      [⟨2, some (ofStr "A"), some (ofStr "45000")⟩]
      [⟨1, some (ofStr "A"), some (ofStr "03/15/2023")⟩]).2
    (by
      intro r hr
      have hreq : r = ⟨2, some (ofStr "A"), some (ofStr "45000")⟩ := by
        simpa using hr
      refine ⟨⟨1, some (ofStr "A"), some (ofStr "03/15/2023")⟩, ?_, ?_⟩
      · rw [hreq]
        decide
      · decide)

/-- C7: the batched persistence phase of `updateMasterList`
(src/src/lib/database.js) discards each batch write's result object
without inspecting its error field: the returned counts are identical
under all-succeeding and all-failing persistence gateways, always equal
the staged counts, and a one-new-row batch whose every write fails is
still reported as one item added — the failure is silently swallowed,
not propagated, and the counts report attempts, not persisted items. -/
theorem C7_persistence_failure_ignored :
    (∀ (uploadId : Nat) (now : JSStr) (masterSel : List ExEntry) (rows : List Row)
       (ok1 ok2 fail1 fail2 : List Entry → Bool),
       SupabaseDB.updateMasterListRun uploadId now masterSel rows ok1 ok2 =
         SupabaseDB.updateMasterListRun uploadId now masterSel rows fail1 fail2) ∧
    (∀ (uploadId : Nat) (now : JSStr) (masterSel : List ExEntry) (rows : List Row)
       (ok1 ok2 : List Entry → Bool),
       SupabaseDB.updateMasterListRun uploadId now masterSel rows ok1 ok2 =
         ((SupabaseDB.updateMasterListStage uploadId now masterSel rows).itemsAdded,
          (SupabaseDB.updateMasterListStage uploadId now masterSel rows).itemsUpdated)) ∧
    SupabaseDB.updateMasterListRun 1 (ofStr "t") [] [{ hb := some (ofStr "X") }]
      (fun _ => false) (fun _ => false) = (1, 0) := by
  refine ⟨fun _ _ _ _ _ _ _ _ => rfl, fun _ _ _ _ _ _ => rfl, ?_⟩
  decide

/-! C8: the date normalizer's case analysis and idempotence. -/

/-- A non-whitespace code unit survives trimming. -/
theorem mem_jsTrim_of_not_WS {c : Nat} {s : JSStr} (hc : isWS c = false) (h : c ∈ s) :
    c ∈ jsTrim s := by
  have h1 : c ∈ s.dropWhile isWS := by
    have h0 : c ∈ s.takeWhile isWS ++ s.dropWhile isWS := by
      rw [List.takeWhile_append_dropWhile]
      exact h
    rcases List.mem_append.mp h0 with h2 | h2
    · have := List.mem_takeWhile_imp h2
      rw [hc] at this
      cases this
    · exact h2
  obtain ⟨w, hw, hall⟩ := trimRightWS_decomp (s.dropWhile isWS)
  rw [jsTrim]
  rcases List.mem_append.mp (hw ▸ h1) with h2 | h2
  · exact h2
  · rw [hall c h2] at hc
    cases hc

/-- Unfolding of `normalizeFrlForComparison` past its emptiness tests. -/
theorem norm_some_unfold (s : JSStr) (hs : s ≠ []) (ht : jsTrim s ≠ []) :
    normalizeFrlForComparison (some s) =
      (if 47 ∈ jsTrim s then jsTrim s
       else
         match jsParseFloat (jsTrim s) with
         | none => jsTrim s
         | some num =>
           if num.gtInt 40000 && num.ltInt 60000 then formatSerial num
           else jsTrim s) := by
  simp only [normalizeFrlForComparison]
  rw [if_neg hs, if_neg ht]

/-- Every code unit of a formatted serial date is a slash or a digit. -/
theorem formatSerial_char_range {num : JSNum} {x : Nat} (h : x ∈ formatSerial num) :
    x = 47 ∨ (48 ≤ x ∧ x ≤ 57) := by
  have hpad : ∀ (l : JSStr), x ∈ pad2 l → x = 48 ∨ x ∈ l := by
    intro l hx
    rw [pad2] at hx
    split at hx
    · rcases List.mem_cons.mp hx with h1 | h1
      · exact Or.inl h1
      · exact Or.inr h1
    · exact Or.inr hx
  simp only [formatSerial] at h
  rcases List.mem_append.mp h with h1 | h1
  · rcases hpad _ h1 with h2 | h2
    · exact Or.inr (by omega)
    · exact Or.inr (mem_natToStr h2)
  · rcases List.mem_cons.mp h1 with h2 | h2
    · exact Or.inl h2
    · rcases List.mem_append.mp h2 with h3 | h3
      · rcases hpad _ h3 with h4 | h4
        · exact Or.inr (by omega)
        · exact Or.inr (mem_natToStr h4)
      · rcases List.mem_cons.mp h3 with h4 | h4
        · exact Or.inl h4
        · exact Or.inr (mem_natToStr h4)

/-- A formatted serial date contains a slash. -/
theorem formatSerial_mem_slash (num : JSNum) : 47 ∈ formatSerial num := by
  simp only [formatSerial]
  exact List.mem_append.mpr (Or.inr (List.mem_cons_self _ _))

/-- A formatted serial date has no whitespace. -/
theorem formatSerial_not_WS {num : JSNum} {x : Nat} (h : x ∈ formatSerial num) :
    isWS x = false := by
  rcases formatSerial_char_range h with h1 | h1
  · rw [h1]
    decide
  · exact isWS_eq_false_of_ge (by omega)

/-- C8: `normalizeFrlForComparison` maps empty/blank input to the empty
string; returns any input containing a slash trimmed; formats an input
parsing to a number strictly between 40000 and 60000 as a spreadsheet
serial date; returns every other input trimmed; and is idempotent. -/
theorem C8_normalize_date_characterization :
    (normalizeFrlForComparison none = [] ∧
     ∀ s : JSStr, jsTrim s = [] → normalizeFrlForComparison (some s) = []) ∧
    (∀ s : JSStr, 47 ∈ s → normalizeFrlForComparison (some s) = jsTrim s) ∧
    (∀ (s : JSStr) (num : JSNum), 47 ∉ jsTrim s →
       jsParseFloat (jsTrim s) = some num →
       (num.gtInt 40000 && num.ltInt 60000) = true →
       s ≠ [] → jsTrim s ≠ [] →
       normalizeFrlForComparison (some s) = formatSerial num) ∧
    (∀ s : JSStr, 47 ∉ jsTrim s →
       (jsParseFloat (jsTrim s) = none ∨
        ∃ num, jsParseFloat (jsTrim s) = some num ∧
          (num.gtInt 40000 && num.ltInt 60000) = false) →
       s ≠ [] → jsTrim s ≠ [] →
       normalizeFrlForComparison (some s) = jsTrim s) ∧
    (∀ x : Option JSStr,
       normalizeFrlForComparison (some (normalizeFrlForComparison x)) =
         normalizeFrlForComparison x) := by
  have hslash : ∀ s : JSStr, s ≠ [] → 47 ∈ jsTrim s →
      normalizeFrlForComparison (some s) = jsTrim s := by
    intro s hs hm
    have ht : jsTrim s ≠ [] := List.ne_nil_of_mem hm
    rw [norm_some_unfold s hs ht, if_pos hm]
  refine ⟨⟨rfl, ?_⟩, ?_, ?_, ?_, ?_⟩
  · intro s ht
    by_cases hs : s = []
    · rw [hs]
      decide
    · simp only [normalizeFrlForComparison]
      rw [if_neg hs, if_pos ht]
  · intro s hm
    have hs : s ≠ [] := List.ne_nil_of_mem hm
    exact hslash s hs (mem_jsTrim_of_not_WS (by decide) hm)
  · intro s num hm hp hr hs ht
    rw [norm_some_unfold s hs ht, if_neg hm, hp]
    show (if num.gtInt 40000 && num.ltInt 60000 then formatSerial num else jsTrim s) =
      formatSerial num
    rw [if_pos hr]
  · intro s hm hpc hs ht
    rw [norm_some_unfold s hs ht, if_neg hm]
    rcases hpc with hp | ⟨num, hp, hr⟩
    · rw [hp]
    · rw [hp]
      show (if num.gtInt 40000 && num.ltInt 60000 then formatSerial num else jsTrim s) =
        jsTrim s
      rw [if_neg (by rw [hr]; exact Bool.false_ne_true)]
  · intro x
    cases x with
    | none => decide
    | some s =>
      by_cases hs : s = []
      · rw [hs]
        decide
      · by_cases ht : jsTrim s = []
        · have h0 : normalizeFrlForComparison (some s) = [] := by
            simp only [normalizeFrlForComparison]
            rw [if_neg hs, if_pos ht]
          rw [h0]
          decide
        · by_cases hm : 47 ∈ jsTrim s
          · have h0 : normalizeFrlForComparison (some s) = jsTrim s :=
              hslash s hs hm
            rw [h0]
            have hm2 : 47 ∈ jsTrim (jsTrim s) := by
              rw [jsTrim_idem]
              exact hm
            rw [hslash (jsTrim s) ht hm2, jsTrim_idem]
          · cases hp : jsParseFloat (jsTrim s) with
            | none =>
              have h0 : normalizeFrlForComparison (some s) = jsTrim s := by
                rw [norm_some_unfold s hs ht, if_neg hm, hp]
              rw [h0]
              rw [norm_some_unfold (jsTrim s) ht (by rw [jsTrim_idem]; exact ht)]
              rw [jsTrim_idem]
              rw [if_neg hm, hp]
            | some num =>
              by_cases hr : (num.gtInt 40000 && num.ltInt 60000) = true
              · have h0 : normalizeFrlForComparison (some s) = formatSerial num := by
                  rw [norm_some_unfold s hs ht, if_neg hm, hp]
                  show (if num.gtInt 40000 && num.ltInt 60000 then formatSerial num
                        else jsTrim s) = formatSerial num
                  rw [if_pos hr]
                rw [h0]
                have hfs : formatSerial num ≠ [] :=
                  List.ne_nil_of_mem (formatSerial_mem_slash num)
                have htfs : jsTrim (formatSerial num) = formatSerial num :=
                  jsTrim_eq_self_of_all (fun c hc => formatSerial_not_WS hc)
                rw [hslash (formatSerial num) hfs
                    (by rw [htfs]; exact formatSerial_mem_slash num), htfs]
              · have h0 : normalizeFrlForComparison (some s) = jsTrim s := by
                  rw [norm_some_unfold s hs ht, if_neg hm, hp]
                  show (if num.gtInt 40000 && num.ltInt 60000 then formatSerial num
                        else jsTrim s) = jsTrim s
                  rw [if_neg hr]
                rw [h0]
                rw [norm_some_unfold (jsTrim s) ht (by rw [jsTrim_idem]; exact ht)]
                rw [jsTrim_idem]
                rw [if_neg hm, hp]
                show (if num.gtInt 40000 && num.ltInt 60000 then formatSerial num
                      else jsTrim s) = jsTrim s
                rw [if_neg hr]

/-- Witness for C8: the serial "45000" formats as a date, and " x "
comes back trimmed. -/
theorem C8_normalize_date_characterization_witness :
    normalizeFrlForComparison (some (ofStr "45000")) = formatSerial ⟨45000, 0⟩ ∧
    normalizeFrlForComparison (some (ofStr " x ")) = jsTrim (ofStr " x ") := by
  constructor
  · exact C8_normalize_date_characterization.2.2.1 (ofStr "45000") ⟨45000, 0⟩
      (by decide) (by decide) (by decide) (by decide) (by decide)
  · exact C8_normalize_date_characterization.2.2.2.1 (ofStr " x ")
      (by decide) (Or.inl (by decide)) (by decide) (by decide)

/-! C9: the deletion frame of the two `deleteUpload` implementations. -/

/-- The surviving Master List after the supabase `deleteUpload`: the
entries first seen elsewhere, with `last_updated_upload_id` references
to the deleted upload nulled (the first-seen nulling branch of the
SET NULL action never fires, those entries having been deleted). -/
theorem deleteUpload_masterList (st : SupabaseDB.DBState) (uid : Nat) :
    (SupabaseDB.deleteUpload st uid).masterList =
      (st.masterList.filter (fun e => decide (e.first_seen_upload_id ≠ some uid))).map
        (fun e =>
          if e.last_updated_upload_id = some uid then
            { e with last_updated_upload_id := none }
          else e) := by
  simp only [SupabaseDB.deleteUpload]
  apply List.map_congr_left
  intro e he
  have h2 : e.first_seen_upload_id ≠ some uid :=
    of_decide_eq_true (List.mem_filter.mp he).2
  rw [if_neg h2]

/-- C9 (corrected): for the supabase implementation with the schema's
referential actions, deletion removes exactly the entries first seen in
the deleted upload and exactly that upload's report rows; every other
entry survives, intact unless its `last_updated_upload_id` pointed at
the deleted upload, in which case that reference — of an entry possibly
first seen elsewhere — is nulled. The localStorage implementation never
touches the Master List at all. -/
theorem C9_delete_upload_frame :
    (∀ (st : SupabaseDB.DBState) (uid : Nat),
       (∀ e ∈ (SupabaseDB.deleteUpload st uid).masterList,
          e.first_seen_upload_id ≠ some uid) ∧
       (∀ e ∈ st.masterList, e.first_seen_upload_id ≠ some uid →
          (if e.last_updated_upload_id = some uid then
             { e with last_updated_upload_id := none }
           else e) ∈ (SupabaseDB.deleteUpload st uid).masterList) ∧
       (∀ e ∈ st.masterList, e.first_seen_upload_id ≠ some uid →
          e.last_updated_upload_id ≠ some uid →
          e ∈ (SupabaseDB.deleteUpload st uid).masterList) ∧
       (∀ r, r ∈ (SupabaseDB.deleteUpload st uid).reportData ↔
          (r ∈ st.reportData ∧ r.upload_id ≠ uid))) ∧
    (∀ (st : SupabaseDB.DBState) (uid : Nat),
       (LocalDB.deleteUpload st uid).masterList = st.masterList ∧
       (∀ r, r ∈ (LocalDB.deleteUpload st uid).reportData ↔
          (r ∈ st.reportData ∧ r.upload_id ≠ uid))) := by
  constructor
  · intro st uid
    refine ⟨?_, ?_, ?_, ?_⟩
    · intro e he
      rw [deleteUpload_masterList] at he
      obtain ⟨e0, he0, heq⟩ := List.mem_map.mp he
      have h2 : e0.first_seen_upload_id ≠ some uid :=
        of_decide_eq_true (List.mem_filter.mp he0).2
      rw [← heq]
      by_cases h3 : e0.last_updated_upload_id = some uid
      · rw [if_pos h3]
        exact h2
      · rw [if_neg h3]
        exact h2
    · intro e he hfs
      rw [deleteUpload_masterList]
      exact List.mem_map.mpr
        ⟨e, List.mem_filter.mpr ⟨he, by simp [hfs]⟩, rfl⟩
    · intro e he hfs hlu
      rw [deleteUpload_masterList]
      refine List.mem_map.mpr ⟨e, List.mem_filter.mpr ⟨he, by simp [hfs]⟩, ?_⟩
      rw [if_neg hlu]
    · intro r
      simp only [SupabaseDB.deleteUpload]
      simp [List.mem_filter]
  · intro st uid
    refine ⟨rfl, ?_⟩
    intro r
    simp only [LocalDB.deleteUpload]
    simp [List.mem_filter]

/-- Witness for C9: an entry first seen in upload 2 with no reference to
upload 1 survives the deletion of upload 1 unchanged. -/
theorem C9_delete_upload_frame_witness :
    ({ hb := ofStr "C", first_seen_upload_id := some 2 } : Entry) ∈
      (SupabaseDB.deleteUpload
        ⟨[⟨1, 10⟩, ⟨2, 20⟩], [],
         [{ hb := ofStr "C", first_seen_upload_id := some 2 }]⟩ 1).masterList :=
  (C9_delete_upload_frame.1
      ⟨[⟨1, 10⟩, ⟨2, 20⟩], [],
       [{ hb := ofStr "C", first_seen_upload_id := some 2 }]⟩ 1).2.2.1
    { hb := ofStr "C", first_seen_upload_id := some 2 }
    (by decide) (by decide) (by decide)

/-- Counterexample for C9 as frozen: the localStorage `deleteUpload`
leaves an entry first seen in the deleted upload fully intact (neither
deleted nor provenance-nulled), and the supabase deletion modifies an
entry first seen in a *different* upload when its last-updated
reference points at the deleted one. -/
theorem C9_counterexample_untouched_and_cross_modified :
    ((LocalDB.deleteUpload
        ⟨[⟨1, 10⟩], [⟨1, some (ofStr "A"), none⟩],
         [{ hb := ofStr "A", first_seen_upload_id := some 1 }]⟩ 1).masterList =
      [{ hb := ofStr "A", first_seen_upload_id := some 1 }]) ∧
    ((SupabaseDB.deleteUpload
        ⟨[⟨1, 10⟩, ⟨2, 20⟩], [],
         [{ hb := ofStr "B", first_seen_upload_id := some 2,
            last_updated_upload_id := some 1 }]⟩ 1).masterList =
      [{ hb := ofStr "B", first_seen_upload_id := some 2,
         last_updated_upload_id := none }]) ∧
    ({ hb := ofStr "B", first_seen_upload_id := some 2,
       last_updated_upload_id := some 1 } : Entry) ≠
      { hb := ofStr "B", first_seen_upload_id := some 2,
        last_updated_upload_id := none } := by
  decide
